import Mathlib

/-!
A verification development for the ulysses-link bidirectional sync core.

The Rust sources (matcher.rs, manifest.rs, linker.rs, scanner.rs, config.rs)
are shallowly embedded: file contents are Lean strings, the filesystem is an
association list from path strings to nodes, machine hashes (SHA-256) and the
third-party matchers (the gitignore matcher, the include glob set) and the
line merge (diffy) are abstract function parameters, and the wall-clock
timestamp used for conflict file names is a string parameter.  All
definitions are executable.
-/

namespace UlyssesLink

/-! ## Matcher (matcher.rs)

The `ignore` crate's `Gitignore` value is modelled by the verdict function
the repository's code observes: for a query `(path, is_dir)` it yields the
boolean `matched(path, is_dir).is_ignore()`.  Whitelist (`!`) verdicts are
not modelled separately; with that, `matched_path_or_any_parents` is the
disjunction of the verdict on the path itself and on each nonempty ancestor
directory, which is how matcher.rs uses it.  The include `GlobSet` is
modelled by its `is_match` function. -/

/-- Verdict function of a compiled exclude matcher: `(path, is_dir)` to
`is_ignore`. -/
def GitignoreV : Type := String → Bool → Bool

/-- Verdict function of a compiled include glob set: `is_match`. -/
def GlobSetV : Type := String → Bool

/-- matcher.rs `normalize_path`: forward slashes (each backslash character
becomes a slash), strip one leading "./", "." becomes the empty string.
Spelled on the character list so that it evaluates by kernel reduction. -/
def normalize_path (rel : String) : String :=
  let n : String := ⟨rel.data.map (fun c => if c = '\\' then '/' else c)⟩
  let n := if n.data.take 2 = ['.', '/'] then (⟨n.data.drop 2⟩ : String) else n
  if n = "." then "" else n

/-- Split a character list at slashes (the components of a forward-slash
path; an empty input yields one empty component, as `str::split` does). -/
def splitSlashAux : List Char → List Char → List (List Char)
  | [], acc => [acc.reverse]
  | c :: t, acc =>
    if c = '/' then acc.reverse :: splitSlashAux t []
    else splitSlashAux t (c :: acc)

/-- Join path components with slashes. -/
def joinSlash : List String → String
  | [] => ""
  | [s] => s
  | s :: t => s ++ "/" ++ joinSlash t

/-- The nonempty proper ancestor directories of a relative path, nearest
last: for "a/b/c.md" this is ["a", "a/b"]. -/
def ancestorDirs (rel : String) : List String :=
  let parts := (splitSlashAux rel.data []).map (fun cs => (⟨cs⟩ : String))
  (List.range (parts.length - 1)).map (fun i => joinSlash (parts.take (i + 1)))

/-- The `ignore` crate's `matched_path_or_any_parents(path, is_dir)`,
reduced to its `is_ignore` verdict: the path itself, or any nonempty
ancestor directory (queried as a directory), is ignored. -/
def matchedPathOrAnyParents (ex : GitignoreV) (p : String) (isDir : Bool) : Bool :=
  ex p isDir || (ancestorDirs p).any (fun a => ex a true)

/-- matcher.rs `should_mirror`: excludes (with parent-directory semantics)
are consulted first; only then the include glob set. -/
def should_mirror (rel : String) (ex : GitignoreV) (inc : GlobSetV) : Bool :=
  let n := normalize_path rel
  if n = "" then false
  else if matchedPathOrAnyParents ex n false then false
  else inc n

/-- matcher.rs `should_descend`: a directory is entered unless the exclude
matcher ignores it (queried with `is_dir = true`). -/
def should_descend (rel : String) (ex : GitignoreV) : Bool :=
  let n := normalize_path rel
  if n = "" then true
  else !(ex n true)

/-! ## Association-list maps

The Rust `HashMap` (manifest) and the on-disk trees (filesystem, base
cache) are modelled as association lists with unique keys; `writeA`
replaces in place, keeping order, and appends fresh keys at the end. -/

/-- First-match association lookup. -/
def lookupA {α : Type} (l : List (String × α)) (k : String) : Option α :=
  match l with
  | [] => none
  | (q, v) :: t => if q = k then some v else lookupA t k

/-- Does the association list carry the key. -/
def hasKeyA {α : Type} (l : List (String × α)) (k : String) : Bool :=
  (lookupA l k).isSome

/-- Insert-or-replace, preserving the order of existing keys: the first
binding of the key is replaced in place, a fresh key is appended at the
end. -/
def writeA {α : Type} (l : List (String × α)) (k : String) (v : α) : List (String × α) :=
  match l with
  | [] => [(k, v)]
  | (q, w) :: t => if q = k then (q, v) :: t else (q, w) :: writeA t k v

/-- Remove a key. -/
def removeA {α : Type} (l : List (String × α)) (k : String) : List (String × α) :=
  l.filter (fun kv => kv.1 ≠ k)

/-- The key list of an association list. -/
def keysA {β : Type} (l : List (String × β)) : List String := l.map Prod.fst

/-! ## Filesystem

Paths are forward-slash strings.  A node is a regular file (content and
modification time) or a symlink.  A symlink's out-of-tree target is stored
inline as presence plus content plus mtime, because `std::fs` operations
`exists`, `read_to_string`, `write`, `copy` and `metadata` all traverse the
link, while `is_symlink` and `remove_file` act on the link itself. -/

inductive FsNode : Type where
  | file (content : String) (mtime : Nat)
  | symlink (targetPresent : Bool) (targetContent : String) (targetMtime : Nat)
deriving DecidableEq, Repr

structure FS : Type where
  files : List (String × FsNode)
  dirs : List String
deriving DecidableEq, Repr

def FS.lookup (fs : FS) (p : String) : Option FsNode :=
  lookupA fs.files p

/-- `Path::exists`, which follows symlinks. -/
def pathExists (fs : FS) (p : String) : Bool :=
  match fs.lookup p with
  | some (.file _ _) => true
  | some (.symlink tp _ _) => tp
  | none => false

/-- `Path::is_symlink`, which does not follow symlinks. -/
def isSymlink (fs : FS) (p : String) : Bool :=
  match fs.lookup p with
  | some (.symlink _ _ _) => true
  | _ => false

/-- `fs::read_to_string`, which follows symlinks. -/
def readFile (fs : FS) (p : String) : Option String :=
  match fs.lookup p with
  | some (.file c _) => some c
  | some (.symlink true c _) => some c
  | _ => none

/-- `fs::metadata(..).modified()`, following symlinks, with the
`unwrap_or(UNIX_EPOCH)` fallback of linker.rs mapped to 0. -/
def mtimeOf (fs : FS) (p : String) : Nat :=
  match fs.lookup p with
  | some (.file _ m) => m
  | some (.symlink true _ m) => m
  | _ => 0

/-- `fs::write` and the destination side of `fs::copy`: both open the path
through a symlink, so writing at a symlink updates the link target and the
link itself survives; writing elsewhere installs a regular file. -/
def writeFile (fs : FS) (p : String) (c : String) (now : Nat) : FS :=
  match fs.lookup p with
  | some (.symlink _ _ _) => ⟨writeA fs.files p (.symlink true c now), fs.dirs⟩
  | _ => ⟨writeA fs.files p (.file c now), fs.dirs⟩

/-- `fs::remove_file` (the linker only calls it on non-symlink paths). -/
def removeFile (fs : FS) (p : String) : FS :=
  ⟨removeA fs.files p, fs.dirs⟩

/-- `Path::is_dir`: the path is a known directory or some file lives
strictly below it.  Directory creation and empty-directory pruning touch
only `dirs`, never file contents, so they are not modelled further. -/
def isDir (fs : FS) (p : String) : Bool :=
  fs.dirs.any (fun q => q = p) || fs.files.any (fun kv => (p ++ "/").data.isPrefixOf kv.1.data)

/-! ## Manifest (manifest.rs) -/

structure ManifestEntry : Type where
  source : String
  hash : String
deriving DecidableEq, Repr

structure Manifest : Type where
  files : List (String × ManifestEntry)
deriving DecidableEq, Repr

def Manifest.emptyM : Manifest := ⟨[]⟩

def Manifest.get (m : Manifest) (k : String) : Option ManifestEntry :=
  lookupA m.files k

def Manifest.insertE (m : Manifest) (k : String) (e : ManifestEntry) : Manifest :=
  ⟨writeA m.files k e⟩

def Manifest.removeE (m : Manifest) (k : String) : Manifest :=
  ⟨removeA m.files k⟩

/-- manifest.rs `entries_for_repo`: entries whose key starts with
`repo_name` plus "/". -/
def Manifest.entries_for_repo (m : Manifest) (repoName : String) : List (String × ManifestEntry) :=
  m.files.filter (fun kv => (repoName ++ "/").data.isPrefixOf kv.1.data)

def Manifest.is_empty (m : Manifest) : Bool :=
  m.files.isEmpty

/-- manifest.rs `MANIFEST_FILENAME`. -/
def MANIFEST_FILENAME : String := ".ulysses-link"

/-- manifest.rs `Manifest::load`: a missing manifest file yields the empty
manifest; an existing file is read and parsed, and a parse failure is a
fatal error.  The TOML parser is third-party and is passed in abstractly as
`parseM`; `none` models `toml::from_str` failing. -/
def Manifest.load (parseM : String → Option (List (String × ManifestEntry)))
    (fs : FS) (output_dir : String) : Except String Manifest :=
  let path := output_dir ++ "/" ++ MANIFEST_FILENAME
  if !(pathExists fs path) then .ok Manifest.emptyM
  else
    match readFile fs path with
    | none => .error "read failed"
    | some contents =>
      match parseM contents with
      | some files => .ok ⟨files⟩
      | none => .error "parse failed"

/-! ## Linker (linker.rs)

The linker's state is the filesystem (carrying both the source trees and
the mirror tree), the in-memory manifest, and the base cache.  The base
cache is the on-disk tree `<output_dir>/.ulysses-link.d/<key>`; since its
paths are disjoint from every source and mirror path the linker touches,
it is modelled as its own association list keyed by the mirror-relative
key, with `write_base`, `read_base` and `remove_base` the map operations.

The SHA-256 digest (`hash_file` reads a path's content, `hash_bytes` a
string) is an abstract parameter `hash`; `diffy::merge` is an abstract
parameter `mergeFn` returning `none` on overlapping hunks; the formatted
local timestamp `chrono::Local::now().format(..)` is a string parameter
`ts`; file writes stamp the abstract current time `now`. -/

inductive SyncOutcome : Type where
  | Copied
  | AlreadyInSync
  | Merged
  | Claimed
  | Skipped
  | Conflict
deriving DecidableEq, Repr

structure SyncState : Type where
  fs : FS
  manifest : Manifest
  base : List (String × String)
deriving DecidableEq, Repr

/-- linker.rs `save_conflict`: write the content as the sibling file
`<file_name>.conflict_<timestamp>` of `path`. -/
def save_conflict (fs : FS) (path content ts : String) (now : Nat) : FS :=
  writeFile fs (path ++ ".conflict_" ++ ts) content now

/-- linker.rs `resolve_conflict`: the side with the newer mtime wins (ties
go to the source); the loser's content is saved as a conflict sibling in
the loser's directory, the winner is copied over the loser, and base plus
manifest take the winning content.  Reads are performed in the order of the
source; the `none` fallbacks are unreachable under the guards of
`sync_file` (both files exist). -/
def resolve_conflict (hash : String → String) (ts : String) (now : Nat)
    (source mirror relPath : String) (st : SyncState) : SyncOutcome × SyncState :=
  let sm := mtimeOf st.fs source
  let mm := mtimeOf st.fs mirror
  if sm ≥ mm then
    match readFile st.fs mirror with
    | none => (.Conflict, st)
    | some cm =>
      let fs1 := save_conflict st.fs mirror cm ts now
      match readFile fs1 source with
      | none => (.Conflict, ⟨fs1, st.manifest, st.base⟩)
      | some cs =>
        let fs2 := writeFile fs1 mirror cs now
        match readFile fs2 source with
        | none => (.Conflict, ⟨fs2, st.manifest, st.base⟩)
        | some cs2 =>
          (.Conflict, ⟨fs2, st.manifest.insertE relPath ⟨source, hash cs2⟩,
            writeA st.base relPath cs2⟩)
  else
    match readFile st.fs source with
    | none => (.Conflict, st)
    | some cs =>
      let fs1 := save_conflict st.fs source cs ts now
      match readFile fs1 mirror with
      | none => (.Conflict, ⟨fs1, st.manifest, st.base⟩)
      | some cm =>
        let fs2 := writeFile fs1 source cm now
        match readFile fs2 mirror with
        | none => (.Conflict, ⟨fs2, st.manifest, st.base⟩)
        | some cm2 =>
          (.Conflict, ⟨fs2, st.manifest.insertE relPath ⟨source, hash cm2⟩,
            writeA st.base relPath cm2⟩)

/-- linker.rs `sync_file`: the three-way sync primitive.  `relPath` is the
mirror-relative key.  The `(.Skipped, st)` fallbacks inside guarded
branches are unreachable (the guard implies the file is readable). -/
def sync_file (hash : String → String) (mergeFn : String → String → String → Option String)
    (ts : String) (now : Nat) (source mirror : String) (st : SyncState)
    (relPath : String) : SyncOutcome × SyncState :=
  let srcEx := pathExists st.fs source
  let mirEx := pathExists st.fs mirror && !isSymlink st.fs mirror
  if srcEx && !mirEx then
    match readFile st.fs source with
    | none => (.Skipped, st)
    | some c =>
      let fs1 := writeFile st.fs mirror c now
      (.Copied, ⟨fs1, st.manifest.insertE relPath ⟨source, hash c⟩,
        writeA st.base relPath c⟩)
  else if srcEx && mirEx then
    match readFile st.fs source, readFile st.fs mirror with
    | some cs, some cm =>
      match st.manifest.get relPath with
      | none =>
        if hash cs = hash cm then
          (.Claimed, ⟨st.fs, st.manifest.insertE relPath ⟨source, hash cs⟩,
            writeA st.base relPath cs⟩)
        else (.Skipped, st)
      | some entry =>
        let manifestHash := entry.hash
        let sourceHash := hash cs
        let mirrorHash := hash cm
        if sourceHash = mirrorHash then
          if manifestHash ≠ sourceHash then
            (.AlreadyInSync, ⟨st.fs, st.manifest.insertE relPath ⟨source, sourceHash⟩,
              writeA st.base relPath cs⟩)
          else (.AlreadyInSync, st)
        else if sourceHash = manifestHash then
          (.Copied, ⟨writeFile st.fs source cm now,
            st.manifest.insertE relPath ⟨source, mirrorHash⟩,
            writeA st.base relPath cm⟩)
        else if mirrorHash = manifestHash then
          (.Copied, ⟨writeFile st.fs mirror cs now,
            st.manifest.insertE relPath ⟨source, sourceHash⟩,
            writeA st.base relPath cs⟩)
        else
          match lookupA st.base relPath with
          | some b =>
            match mergeFn b cs cm with
            | some merged =>
              let fs1 := writeFile (writeFile st.fs source merged now) mirror merged now
              (.Merged, ⟨fs1, st.manifest.insertE relPath ⟨source, hash merged⟩,
                writeA st.base relPath merged⟩)
            | none => resolve_conflict hash ts now source mirror relPath st
          | none => resolve_conflict hash ts now source mirror relPath st
    | _, _ => (.Skipped, st)
  else
    (.Skipped, st)

/-- linker.rs `prune_stale`, one manifest entry: if the recorded source is
gone, remove the mirror file (when present and not a symlink), the
base-cache entry and the manifest entry, and count it. -/
def pruneStep (outputDir : String) (acc : Nat × SyncState)
    (ke : String × ManifestEntry) : Nat × SyncState :=
  let (n, st) := acc
  if !(pathExists st.fs ke.2.source) then
    let mirror := outputDir ++ "/" ++ ke.1
    let fs1 := if pathExists st.fs mirror && !isSymlink st.fs mirror
               then removeFile st.fs mirror else st.fs
    (n + 1, ⟨fs1, st.manifest.removeE ke.1, removeA st.base ke.1⟩)
  else acc

/-- linker.rs `prune_stale`: iterate a snapshot of the repo's manifest
entries and drop the stale ones.  The trailing empty-directory pruning only
removes empty directories and is not modelled. -/
def prune_stale (repoName outputDir : String) (st : SyncState) : Nat × SyncState :=
  (st.manifest.entries_for_repo repoName).foldl (pruneStep outputDir) (0, st)

/-- linker.rs `remove_dir_mirrors`, one entry: remove the mirror file (when
present and not a symlink, counting it), the base-cache entry and the
manifest entry. -/
def removeDirStep (outputDir : String) (acc : Nat × SyncState)
    (ke : String × ManifestEntry) : Nat × SyncState :=
  let (n, st) := acc
  let mirror := outputDir ++ "/" ++ ke.1
  if pathExists st.fs mirror && !isSymlink st.fs mirror then
    (n + 1, ⟨removeFile st.fs mirror, st.manifest.removeE ke.1, removeA st.base ke.1⟩)
  else
    (n, ⟨st.fs, st.manifest.removeE ke.1, removeA st.base ke.1⟩)

/-- linker.rs `remove_dir_mirrors`: the prefix is
`format!("{repo_name}/{dir_rel_path}")`, with no trailing slash; the
affected entries are the repo's entries whose key starts with that prefix.
The empty-directory pruning at the end only removes empty directories and
is not modelled. -/
def remove_dir_mirrors (repoName dirRelPath outputDir : String) (st : SyncState) :
    Nat × SyncState :=
  let pfx := repoName ++ "/" ++ dirRelPath
  let entries := (st.manifest.entries_for_repo repoName).filter
    (fun kv => pfx.data.isPrefixOf kv.1.data)
  entries.foldl (removeDirStep outputDir) (0, st)

/-! ## Scanner (scanner.rs)

A repo configuration carries the source root path, the deduplicated short
name and the compiled matchers (abstract verdict functions).  The walk of
`WalkDir` with `filter_entry` is modelled on the snapshot of the
filesystem taken at scan start: a file is enumerated iff its path lies
strictly under the repo root, it is not a symlink, and every nonempty
proper ancestor directory passes `should_descend`. -/

structure RepoConfig : Type where
  path : String
  name : String
  ex : GitignoreV
  inc : GlobSetV

structure Config : Type where
  output_dir : String
  repos : List RepoConfig

structure ScanResult : Type where
  created : Nat := 0
  already_existed : Nat := 0
  skipped : Nat := 0
  pruned : Nat := 0
  merged : Nat := 0
  conflicts : Nat := 0
  errors : Nat := 0
deriving DecidableEq, Repr

def ScanResult.zero : ScanResult := {}

/-- scanner.rs `ScanResult::merge` (additive composition). -/
def ScanResult.mergeR (a b : ScanResult) : ScanResult :=
  ⟨a.created + b.created, a.already_existed + b.already_existed,
   a.skipped + b.skipped, a.pruned + b.pruned, a.merged + b.merged,
   a.conflicts + b.conflicts, a.errors + b.errors⟩

/-- The outcome tally of scanner.rs `scan_repo`'s match: `Copied` counts as
created, `AlreadyInSync` and `Claimed` as already existed. -/
def tally (r : ScanResult) : SyncOutcome → ScanResult
  | .Copied => { r with created := r.created + 1 }
  | .AlreadyInSync => { r with already_existed := r.already_existed + 1 }
  | .Claimed => { r with already_existed := r.already_existed + 1 }
  | .Skipped => { r with skipped := r.skipped + 1 }
  | .Merged => { r with merged := r.merged + 1 }
  | .Conflict => { r with conflicts := r.conflicts + 1 }

/-- The relative path of `p` under `root`, when `p` lies strictly below
`root` (Rust `strip_prefix` against the repo path, as a string on the
forward-slash convention). -/
def underRoot (root p : String) : Option String :=
  if (root ++ "/").data.isPrefixOf p.data then some (⟨p.data.drop (root.length + 1)⟩ : String) else none

/-- The files the `WalkDir` walk of scanner.rs enumerates, relative to the
repo root: regular files strictly under the root all of whose nonempty
proper ancestor directories pass `should_descend`. -/
def walkFiles (fs : FS) (repo : RepoConfig) : List String :=
  fs.files.filterMap fun kv =>
    match underRoot repo.path kv.1 with
    | none => none
    | some rel =>
      match kv.2 with
      | .symlink _ _ _ => none
      | .file _ _ =>
        if (ancestorDirs rel).all (fun d => should_descend d repo.ex) then some rel
        else none

/-- One walk entry of scanner.rs `scan_repo`: if the file passes
`should_mirror`, sync it under the key `repo_name/rel` and tally the
outcome. -/
def syncStep (hash : String → String) (mergeFn : String → String → String → Option String)
    (ts : String) (now : Nat) (repo : RepoConfig) (outputDir : String)
    (acc : ScanResult × SyncState) (rel : String) : ScanResult × SyncState :=
  if should_mirror rel repo.ex repo.inc then
    let source := repo.path ++ "/" ++ rel
    let key := repo.name ++ "/" ++ rel
    let mirror := outputDir ++ "/" ++ key
    let (o, st') := sync_file hash mergeFn ts now source mirror acc.2 key
    (tally acc.1 o, st')
  else acc

/-- scanner.rs `scan_repo`: warn-and-return on a missing repo root; walk
and sync every enumerated file that passes `should_mirror`; prune stale
entries; save the manifest (the save is modelled as succeeding and has no
observable effect on the modelled state). -/
def scan_repo (hash : String → String) (mergeFn : String → String → String → Option String)
    (ts : String) (now : Nat) (repo : RepoConfig) (outputDir : String)
    (st : SyncState) : ScanResult × SyncState :=
  if !(isDir st.fs repo.path) then (ScanResult.zero, st)
  else
    let files := walkFiles st.fs repo
    let (r1, st1) := files.foldl (syncStep hash mergeFn ts now repo outputDir)
      (ScanResult.zero, st)
    let (pr, st2) := prune_stale repo.name outputDir st1
    ({ r1 with pruned := pr }, st2)

/-- scanner.rs `full_scan`: scan every configured repo against the one
output directory, merging the counters. -/
def full_scan (hash : String → String) (mergeFn : String → String → String → Option String)
    (ts : String) (now : Nat) (config : Config) (st : SyncState) :
    ScanResult × SyncState :=
  config.repos.foldl
    (fun acc repo =>
      let (r, st') := scan_repo hash mergeFn ts now repo config.output_dir acc.2
      (acc.1.mergeR r, st'))
    (ScanResult.zero, st)

/-- One repo step of the `full_scan` fold, named so the cross-repo
theorems can speak about it. -/
def fullStep (hash : String → String) (mergeFn : String → String → String → Option String)
    (ts : String) (now : Nat) (O : String) (acc : ScanResult × SyncState)
    (repo : RepoConfig) : ScanResult × SyncState :=
  let (r, st') := scan_repo hash mergeFn ts now repo O acc.2
  (acc.1.mergeR r, st')

/-- The in-scope files of a configuration on a filesystem: per repo, the
walked files that pass `should_mirror`. -/
def inScopeCount (fs : FS) (config : Config) : Nat :=
  (config.repos.map
    (fun repo => ((walkFiles fs repo).filter
      (fun rel => should_mirror rel repo.ex repo.inc)).length)).sum

/-! ## Shapes and well-formedness used by the scan theorems -/

/-- The source path of a walked file. -/
def srcP (repo : RepoConfig) (rel : String) : String := repo.path ++ "/" ++ rel

/-- The mirror-relative key of a walked file. -/
def keyP (repo : RepoConfig) (rel : String) : String := repo.name ++ "/" ++ rel

/-- The mirror path of a walked file. -/
def mirP (outputDir : String) (repo : RepoConfig) (rel : String) : String :=
  outputDir ++ "/" ++ keyP repo rel

/-- Is a node a regular file. -/
def isFileNode : FsNode → Bool
  | .file _ _ => true
  | .symlink _ _ _ => false

/-- The filesystem carries no symlink at all (decidable form). -/
def noSymP (fs : FS) : Prop := ∀ kv ∈ fs.files, isFileNode kv.2 = true

/-- Every manifest entry's recorded source path exists. -/
def SourcesLive (st : SyncState) : Prop :=
  ∀ kv ∈ st.manifest.files, pathExists st.fs kv.2.source = true

instance (fs : FS) : Decidable (noSymP fs) := by
  unfold noSymP
  infer_instance

instance (st : SyncState) : Decidable (SourcesLive st) := by
  unfold SourcesLive
  infer_instance

/-- Two roots are not nested: with a slash appended, neither is a prefix
of the other (this also rules out equality). -/
def NotNested (a b : String) : Prop :=
  ¬ (a ++ "/").data <+: (b ++ "/").data ∧ ¬ (b ++ "/").data <+: (a ++ "/").data

/-- Configuration well-formedness: the output directory is not nested with
any repo root, and the repo roots, as well as the repo names, are pairwise
not nested (for names this covers distinctness). -/
def ConfigWF (cfg : Config) : Prop :=
  (∀ r ∈ cfg.repos, NotNested cfg.output_dir r.path) ∧
  cfg.repos.Pairwise (fun r r' => NotNested r.path r'.path ∧ NotNested r.name r'.name)

instance (a b : String) : Decidable (NotNested a b) := by
  unfold NotNested
  infer_instance

instance (cfg : Config) : Decidable (ConfigWF cfg) := by
  unfold ConfigWF
  infer_instance

/-- A walked file is stable: source and mirror are regular files, and
either the hashes agree and the manifest entry carries that hash, or the
hashes differ and there is no manifest entry (a foreign mirror file).  A
second scan leaves such a file untouched, tallying AlreadyInSync or
Skipped. -/
def StableFor (hash : String → String) (outputDir : String) (repo : RepoConfig)
    (rel : String) (st : SyncState) : Prop :=
  ∃ cs ms cm mm,
    st.fs.lookup (srcP repo rel) = some (.file cs ms) ∧
    st.fs.lookup (mirP outputDir repo rel) = some (.file cm mm) ∧
    ((hash cs = hash cm ∧
      ∃ e, st.manifest.get (keyP repo rel) = some e ∧ e.hash = hash cs) ∨
     (hash cs ≠ hash cm ∧ st.manifest.get (keyP repo rel) = none))

/-- Precondition of the walk fold of a first scan: every walked source is
a regular file, the walked relative paths are duplicate-free, there are no
symlinks, and every manifest entry's source is alive. -/
def ScanFoldPre (repo : RepoConfig) (l : List String) (st : SyncState) : Prop :=
  (∀ rel ∈ l, ∃ c m, st.fs.lookup (srcP repo rel) = some (.file c m)) ∧
  l.Nodup ∧ noSymP st.fs ∧ SourcesLive st ∧ (keysA st.fs.files).Nodup

/-- Postcondition of the walk fold of a conflict-free first scan: every
in-scope walked file is stable, the global invariants persist, the key
list only grew by mirror paths of walked files, and everything outside the
walked files' source paths, mirror paths and keys is untouched. -/
def ScanFoldPost (hash : String → String) (O : String) (repo : RepoConfig)
    (l : List String) (st st' : SyncState) : Prop :=
  (∀ rel ∈ l, should_mirror rel repo.ex repo.inc = true →
    StableFor hash O repo rel st') ∧
  noSymP st'.fs ∧
  (keysA st'.fs.files).Nodup ∧
  SourcesLive st' ∧
  st'.fs.dirs = st.fs.dirs ∧
  (∃ ext, keysA st'.fs.files = keysA st.fs.files ++ ext ∧
    ∀ k ∈ ext, ∃ rel ∈ l, k = mirP O repo rel) ∧
  (∀ q, (∀ rel ∈ l, q ≠ srcP repo rel ∧ q ≠ mirP O repo rel) →
    st'.fs.lookup q = st.fs.lookup q) ∧
  (∀ k, (∀ rel ∈ l, k ≠ keyP repo rel) → st'.manifest.get k = st.manifest.get k) ∧
  (∀ k, (∀ rel ∈ l, k ≠ keyP repo rel) → lookupA st'.base k = lookupA st.base k) ∧
  (∀ q, st.fs.lookup q ≠ none → st'.fs.lookup q ≠ none)

/-- Postcondition of a conflict-free first `scan_repo` of one repo against
the output root `O`, relative to the repo's input state: every walked
in-scope file is stable, the global invariants persist, the file keys only
grew under the output root, and every path outside the repo root and the
repo's own mirror subtree — and every manifest or base key outside the
repo's name prefix — is untouched. -/
def ScanRepoPost (hash : String → String) (O : String) (repo : RepoConfig)
    (st st' : SyncState) : Prop :=
  (∀ rel ∈ walkFiles st.fs repo, should_mirror rel repo.ex repo.inc = true →
    StableFor hash O repo rel st') ∧
  noSymP st'.fs ∧
  (keysA st'.fs.files).Nodup ∧
  SourcesLive st' ∧
  st'.fs.dirs = st.fs.dirs ∧
  (∃ ext, keysA st'.fs.files = keysA st.fs.files ++ ext ∧
    ∀ k ∈ ext, (O ++ "/").data <+: k.data) ∧
  (∀ q, ¬ (repo.path ++ "/").data <+: q.data →
    ¬ ((O ++ "/" ++ repo.name) ++ "/").data <+: q.data →
    st'.fs.lookup q = st.fs.lookup q) ∧
  (∀ k, ¬ (repo.name ++ "/").data <+: k.data →
    st'.manifest.get k = st.manifest.get k) ∧
  (∀ k, ¬ (repo.name ++ "/").data <+: k.data →
    lookupA st'.base k = lookupA st.base k) ∧
  (∀ q, st.fs.lookup q ≠ none → st'.fs.lookup q ≠ none)

/-! ## Config loading (config.rs, the validation slice relevant here)

`parse_config` is modelled on a raw configuration record with the
filesystem-dependent steps elided: path expansion and canonicalization and
`create_dir_all` on the output directory are kept as the identity on the
path string.  `f64` values are modelled as rationals (the comparisons
involved are order comparisons on ordinary finite values).  The model
covers the validation sequence: version check, required output directory,
debounce range check, log level check, rescan interval check. -/

inductive RawRescanInterval : Type where
  | Named (s : String)
  | Seconds (n : ℚ)
deriving DecidableEq, Repr

structure RawConfig : Type where
  version : Option Nat
  output_dir : Option String
  debounce_seconds : Option ℚ
  log_level : Option String
  rescan_interval : Option RawRescanInterval
deriving DecidableEq, Repr

inductive RescanInterval : Type where
  | Auto
  | Never
  | Fixed (seconds : ℚ)
deriving DecidableEq, Repr

structure ConfigV : Type where
  output_dir : String
  debounce_seconds : ℚ
  log_level : String
  rescan_interval : RescanInterval
deriving DecidableEq, Repr

def DEFAULT_DEBOUNCE_SECONDS : ℚ := 1 / 2

def DEFAULT_LOG_LEVEL : String := "INFO"

/-- config.rs `parse_config` (validation slice): version must be 1, the
output directory is required, `debounce_seconds` outside [0, 30] is a
validation error, the log level must be one of the five known names, and
the rescan interval is "auto", "never" or a positive number of seconds. -/
def parse_config (raw : RawConfig) : Except String ConfigV :=
  if raw.version ≠ some 1 then .error "config version must be 1"
  else
    match raw.output_dir with
    | none => .error "output_dir is required"
    | some output_dir =>
      let debounce := raw.debounce_seconds.getD DEFAULT_DEBOUNCE_SECONDS
      if !(0 ≤ debounce ∧ debounce ≤ 30 : Bool) then
        .error "debounce_seconds must be between 0.0 and 30.0"
      else
        let log_level := raw.log_level.getD DEFAULT_LOG_LEVEL
        if !(["DEBUG", "INFO", "WARNING", "ERROR", "TRACE"].any (fun s => s = log_level)) then
          .error "log_level must be one of the known levels"
        else
          match raw.rescan_interval with
          | none => .ok ⟨output_dir, debounce, log_level, .Auto⟩
          | some (.Named s) =>
            if s = "auto" then .ok ⟨output_dir, debounce, log_level, .Auto⟩
            else if s = "never" then .ok ⟨output_dir, debounce, log_level, .Never⟩
            else .error "rescan_interval must be auto, never, or a positive number"
          | some (.Seconds n) =>
            if 0 < n then .ok ⟨output_dir, debounce, log_level, .Fixed n⟩
            else .error "rescan_interval must be a positive number of seconds"

/-! ## Association-list and filesystem lemmas -/

section MapLemmas

variable {α : Type}

@[simp] theorem lookupA_nil (k : String) : lookupA ([] : List (String × α)) k = none := rfl

theorem lookupA_cons (q : String) (v : α) (t : List (String × α)) (k : String) :
    lookupA ((q, v) :: t) k = if q = k then some v else lookupA t k := rfl

theorem lookupA_writeA (l : List (String × α)) (k k' : String) (v : α) :
    lookupA (writeA l k v) k' = if k' = k then some v else lookupA l k' := by
  induction l with
  | nil =>
    by_cases h : k' = k
    · subst h; simp [writeA, lookupA_cons]
    · simp [writeA, lookupA_cons, h, Ne.symm h]
  | cons kv t ih =>
    obtain ⟨q, w⟩ := kv
    by_cases hq : q = k
    · subst hq
      by_cases h : k' = q
      · subst h; simp [writeA, lookupA_cons]
      · simp [writeA, lookupA_cons, h, Ne.symm h]
    · by_cases h : q = k'
      · subst h
        simp [writeA, hq, lookupA_cons, Ne.symm hq]
      · simp [writeA, hq, lookupA_cons, h, ih]

theorem lookupA_writeA_self (l : List (String × α)) (k : String) (v : α) :
    lookupA (writeA l k v) k = some v := by
  simp [lookupA_writeA]

theorem lookupA_writeA_ne (l : List (String × α)) {k k' : String} (v : α) (h : k' ≠ k) :
    lookupA (writeA l k v) k' = lookupA l k' := by
  simp [lookupA_writeA, h]

theorem lookupA_removeA (l : List (String × α)) (k k' : String) :
    lookupA (removeA l k) k' = if k' = k then none else lookupA l k' := by
  induction l with
  | nil => simp [removeA]
  | cons kv t ih =>
    obtain ⟨q, w⟩ := kv
    by_cases hq : q = k
    · subst hq
      have hrm : removeA ((q, w) :: t) q = removeA t q := by simp [removeA]
      rw [hrm, ih]
      by_cases h : k' = q
      · subst h; simp
      · simp [h, lookupA_cons, Ne.symm h]
    · have hrm : removeA ((q, w) :: t) k = (q, w) :: removeA t k := by simp [removeA, hq]
      rw [hrm]
      by_cases h : q = k'
      · subst h
        simp [lookupA_cons, hq, Ne.symm hq]
      · simp [lookupA_cons, h, ih]

theorem lookupA_eq_none_iff (l : List (String × α)) (k : String) :
    lookupA l k = none ↔ k ∉ keysA l := by
  induction l with
  | nil => simp [keysA]
  | cons kv t ih =>
    obtain ⟨q, w⟩ := kv
    by_cases hq : q = k
    · subst hq; simp [keysA, lookupA_cons]
    · simp [keysA, lookupA_cons, hq, Ne.symm hq] at *
      exact ih

theorem keysA_writeA (l : List (String × α)) (k : String) (v : α) :
    keysA (writeA l k v) = if hasKeyA l k then keysA l else keysA l ++ [k] := by
  induction l with
  | nil => simp [writeA, keysA, hasKeyA]
  | cons kv t ih =>
    obtain ⟨q, w⟩ := kv
    by_cases hq : q = k
    · subst hq
      simp [writeA, keysA, hasKeyA, lookupA_cons]
    · simp only [writeA, if_neg hq]
      have hcons : hasKeyA ((q, w) :: t) k = hasKeyA t k := by
        simp [hasKeyA, lookupA_cons, hq]
      rw [hcons]
      by_cases ht : hasKeyA t k
      · simp [keysA, ht] at ih ⊢; exact ih
      · simp [keysA, ht] at ih ⊢; exact ih

theorem keysA_removeA (l : List (String × α)) (k : String) :
    keysA (removeA l k) = (keysA l).filter (fun q => q ≠ k) := by
  induction l with
  | nil => simp [removeA, keysA]
  | cons kv t ih =>
    obtain ⟨q, w⟩ := kv
    by_cases hq : q = k
    · subst hq; simp [removeA, keysA] at *; exact ih
    · simp [removeA, keysA, hq] at *; exact ih

theorem nodup_keysA_writeA (l : List (String × α)) (k : String) (v : α)
    (h : (keysA l).Nodup) : (keysA (writeA l k v)).Nodup := by
  rw [keysA_writeA]
  by_cases hk : hasKeyA l k
  · simp [hk, h]
  · simp only [hk, if_false, Bool.false_eq_true]
    have hnot : k ∉ keysA l := by
      have := (lookupA_eq_none_iff l k).mp ?_
      · exact this
      · unfold hasKeyA at hk
        cases hl : lookupA l k with
        | none => rfl
        | some v' => simp [hl] at hk
    simp [List.nodup_append, h, hnot]

end MapLemmas

section FsLemmas

theorem FS.lookup_writeFile (fs : FS) (p q : String) (c : String) (now : Nat) :
    (writeFile fs p c now).lookup q =
      if q = p then
        some (match fs.lookup p with
              | some (.symlink _ _ _) => .symlink true c now
              | _ => .file c now)
      else fs.lookup q := by
  unfold writeFile FS.lookup
  cases h : lookupA fs.files p with
  | none => simp [h, lookupA_writeA]
  | some n => cases n <;> simp [h, lookupA_writeA]

theorem FS.lookup_writeFile_ne (fs : FS) {p q : String} (c : String) (now : Nat)
    (h : q ≠ p) : (writeFile fs p c now).lookup q = fs.lookup q := by
  simp [FS.lookup_writeFile, h]

theorem FS.lookup_writeFile_self_file (fs : FS) (p : String) (c : String) (now : Nat)
    (h : isSymlink fs p = false) :
    (writeFile fs p c now).lookup p = some (.file c now) := by
  rw [FS.lookup_writeFile]
  unfold isSymlink at h
  cases hn : fs.lookup p with
  | none => simp [hn]
  | some n => cases n <;> simp_all [hn]

theorem FS.lookup_removeFile (fs : FS) (p q : String) :
    (removeFile fs p).lookup q = if q = p then none else fs.lookup q := by
  unfold removeFile FS.lookup
  simp [lookupA_removeA]

theorem FS.dirs_writeFile (fs : FS) (p c : String) (now : Nat) :
    (writeFile fs p c now).dirs = fs.dirs := by
  unfold writeFile
  cases h : fs.lookup p with
  | none => simp
  | some n => cases n <;> simp

theorem FS.dirs_removeFile (fs : FS) (p : String) :
    (removeFile fs p).dirs = fs.dirs := rfl

theorem pathExists_eq (fs : FS) (p : String) :
    pathExists fs p = ((fs.lookup p).map (fun n =>
      match n with
      | .file _ _ => true
      | .symlink tp _ _ => tp)).getD false := by
  unfold pathExists
  cases h : fs.lookup p with
  | none => simp
  | some n => cases n <;> simp

theorem readFile_isSome_of_pathExists (fs : FS) (p : String)
    (h : pathExists fs p = true) : (readFile fs p).isSome := by
  unfold pathExists readFile at *
  cases hn : fs.lookup p with
  | none => simp [hn] at h
  | some n =>
    cases n with
    | file c m => simp [hn]
    | symlink tp tc tm => simp [hn] at h ⊢; simp [h]

end FsLemmas

/-! ## Claim C4: exclude matches override includes -/

/-- C4: for every relative path, exclude matcher and include glob set, if
the exclude matcher ignores the (normalized) path itself or any of its
nonempty ancestor directories, `should_mirror` returns false regardless of
what the include patterns match. -/
theorem claim_C4_exclude_overrides_include (rel : String) (ex : GitignoreV) (inc : GlobSetV)
    (h : ex (normalize_path rel) false = true ∨
      ∃ a ∈ ancestorDirs (normalize_path rel), ex a true = true) :
    should_mirror rel ex inc = false := by
  have hm : matchedPathOrAnyParents ex (normalize_path rel) false = true := by
    unfold matchedPathOrAnyParents
    rcases h with h | ⟨a, ha, hev⟩
    · simp [h]
    · simp only [Bool.or_eq_true, List.any_eq_true]
      exact Or.inr ⟨a, ha, hev⟩
  unfold should_mirror
  simp [hm]

/-- Witness for C4 at a concrete input: the directory pattern blocking
"node_modules" excludes a file two levels below it even though the include
set matches everything. -/
theorem claim_C4_witness :
    ((fun (p : String) (_ : Bool) => decide (p = "node_modules")) (normalize_path "node_modules/x/README.md") false = true ∨
      ∃ a ∈ ancestorDirs (normalize_path "node_modules/x/README.md"),
        (fun (p : String) (_ : Bool) => decide (p = "node_modules")) a true = true) ∧
    should_mirror "node_modules/x/README.md"
      (fun (p : String) (_ : Bool) => decide (p = "node_modules")) (fun _ => true) = false :=
  ⟨Or.inr (by decide),
   claim_C4_exclude_overrides_include _ _ _ (Or.inr (by decide))⟩

/-! ## Claim C6: remove_dir_mirrors prefix is missing the trailing slash

The specification says entries whose key begins with `repo/dir_rel/` are
removed; linker.rs builds the prefix without the trailing slash, so a
sibling directory whose name merely extends `dir_rel` is swept as well.
The following theorem evaluates the model at the failing input. -/

/-- C6 failing input: with `repo`, `dir_rel = "docs"` and a manifest
holding `repo/docs/a.md` and `repo/docs-old/x.md`, `remove_dir_mirrors`
removes the `repo/docs-old/x.md` manifest entry, mirror file and base
entry, although the claim (and the spec) say a longer sibling name must be
kept. -/
theorem claim_C6_code_bug_sibling_swept :
    (remove_dir_mirrors "repo" "docs" "out"
      ⟨⟨[("out/repo/docs/a.md", .file "a" 0), ("out/repo/docs-old/x.md", .file "x" 0)], []⟩,
       ⟨[("repo/docs/a.md", ⟨"src/docs/a.md", "h1"⟩),
         ("repo/docs-old/x.md", ⟨"src/docs-old/x.md", "h2"⟩)]⟩,
       [("repo/docs/a.md", "a"), ("repo/docs-old/x.md", "x")]⟩).2.manifest.get
        "repo/docs-old/x.md" = none ∧
    (remove_dir_mirrors "repo" "docs" "out"
      ⟨⟨[("out/repo/docs/a.md", .file "a" 0), ("out/repo/docs-old/x.md", .file "x" 0)], []⟩,
       ⟨[("repo/docs/a.md", ⟨"src/docs/a.md", "h1"⟩),
         ("repo/docs-old/x.md", ⟨"src/docs-old/x.md", "h2"⟩)]⟩,
       [("repo/docs/a.md", "a"), ("repo/docs-old/x.md", "x")]⟩).2.fs.lookup
        "out/repo/docs-old/x.md" = none ∧
    (remove_dir_mirrors "repo" "docs" "out"
      ⟨⟨[("out/repo/docs/a.md", .file "a" 0), ("out/repo/docs-old/x.md", .file "x" 0)], []⟩,
       ⟨[("repo/docs/a.md", ⟨"src/docs/a.md", "h1"⟩),
         ("repo/docs-old/x.md", ⟨"src/docs-old/x.md", "h2"⟩)]⟩,
       [("repo/docs/a.md", "a"), ("repo/docs-old/x.md", "x")]⟩).1 = 2 := by
  decide

/-! ## Claim C8: Manifest::load on missing and on corrupt manifest files -/

/-- C8: `Manifest::load` returns the empty manifest when no manifest file
exists in the output directory, and fails with an error when the manifest
file is present (readable with content `s`) but the parser rejects it. -/
theorem claim_C8_manifest_load (parseM : String → Option (List (String × ManifestEntry)))
    (fs : FS) (out s : String) :
    (pathExists fs (out ++ "/" ++ MANIFEST_FILENAME) = false →
      Manifest.load parseM fs out = .ok Manifest.emptyM) ∧
    (readFile fs (out ++ "/" ++ MANIFEST_FILENAME) = some s → parseM s = none →
      Manifest.load parseM fs out = .error "parse failed") := by
  constructor
  · intro h
    unfold Manifest.load
    simp [h]
  · intro h1 h2
    have hex : pathExists fs (out ++ "/" ++ MANIFEST_FILENAME) = true := by
      unfold pathExists
      unfold readFile at h1
      cases hn : (fs.lookup (out ++ "/" ++ MANIFEST_FILENAME)) with
      | none => rw [hn] at h1; exact absurd h1 (by simp)
      | some n =>
        rw [hn] at h1
        cases n with
        | file c m => rfl
        | symlink tp tc tm =>
          cases tp with
          | true => rfl
          | false => exact absurd h1 (by simp)
    unfold Manifest.load
    simp [hex, h1, h2]

/-- Witness for C8 at concrete inputs: an output directory with no
manifest file loads as empty; a present but unparseable manifest file is a
load error. -/
theorem claim_C8_witness :
    Manifest.load (fun _ => none) ⟨[], []⟩ "o" = .ok Manifest.emptyM ∧
    Manifest.load (fun _ => none) ⟨[("o/.ulysses-link", .file "garbage" 0)], []⟩ "o" =
      .error "parse failed" :=
  ⟨(claim_C8_manifest_load (fun _ => none) ⟨[], []⟩ "o" "garbage").1 (by decide),
   (claim_C8_manifest_load (fun _ => none) ⟨[("o/.ulysses-link", .file "garbage" 0)], []⟩
      "o" "garbage").2 (by decide) rfl⟩

/-! ## Claim C9: out-of-range debounce_seconds is rejected, not clamped -/

/-- C9 counterexample: with `debounce_seconds = 31`, config loading does
not produce a configuration at all, contradicting the claim that the value
is clamped into [0, 30] and a configuration is still produced. -/
theorem claim_C9_counterexample :
    (parse_config ⟨some 1, some "out", some 31, none, none⟩).isOk = false := by
  decide

/-- C9 (amended): a `debounce_seconds` outside [0, 30] makes config
loading fail with a validation error (no configuration is produced), and
consequently every configuration that does load carries a debounce value
in [0, 30], so the debounce window consumed by the watchers always lies in
[0, 30]. -/
theorem claim_C9_amended_debounce_rejected (raw : RawConfig) :
    (∀ d, raw.debounce_seconds = some d → (d < 0 ∨ 30 < d) →
      ∃ msg, parse_config raw = .error msg) ∧
    (∀ cfg, parse_config raw = .ok cfg →
      0 ≤ cfg.debounce_seconds ∧ cfg.debounce_seconds ≤ 30) := by
  have hb_of : ∀ d, raw.debounce_seconds = some d → (d < 0 ∨ 30 < d) →
      ¬(0 ≤ raw.debounce_seconds.getD DEFAULT_DEBOUNCE_SECONDS ∧
        raw.debounce_seconds.getD DEFAULT_DEBOUNCE_SECONDS ≤ 30) := by
    intro d hd hrange
    rw [hd]
    rcases hrange with h | h
    · exact fun hc => absurd hc.1 (not_le.mpr h)
    · exact fun hc => absurd hc.2 (not_le.mpr h)
  constructor
  · intro d hd hrange
    by_cases hv : raw.version ≠ some 1
    · exact ⟨_, by unfold parse_config; rw [if_pos hv]⟩
    · unfold parse_config
      rw [if_neg hv]
      cases ho : raw.output_dir with
      | none => exact ⟨_, rfl⟩
      | some o =>
        simp only
        rw [decide_eq_false (hb_of d hd hrange)]
        exact ⟨_, rfl⟩
  · intro cfg hok
    unfold parse_config at hok
    split at hok
    · exact absurd hok (by simp)
    · split at hok
      · exact absurd hok (by simp)
      · simp only [] at hok
        by_cases hb : (0 ≤ raw.debounce_seconds.getD DEFAULT_DEBOUNCE_SECONDS ∧
            raw.debounce_seconds.getD DEFAULT_DEBOUNCE_SECONDS ≤ 30)
        · rw [decide_eq_true hb] at hok
          simp only [Bool.not_true, Bool.false_eq_true, if_false] at hok
          repeat' split at hok
          all_goals cases hok
          all_goals exact hb
        · rw [decide_eq_false hb] at hok
          exact absurd hok (by simp)

/-- Witness for C9: the theorem applied at `debounce_seconds = 31` (the
load fails) and at a loading configuration whose debounce is 5 (in
range). -/
theorem claim_C9_witness :
    (∃ msg, parse_config ⟨some 1, some "out", some 31, none, none⟩ = .error msg) ∧
    (0 ≤ ((⟨"out", 5, "INFO", .Auto⟩ : ConfigV)).debounce_seconds ∧
      ((⟨"out", 5, "INFO", .Auto⟩ : ConfigV)).debounce_seconds ≤ 30) :=
  ⟨(claim_C9_amended_debounce_rejected ⟨some 1, some "out", some 31, none, none⟩).1
      31 rfl (Or.inr (by norm_num)),
   (claim_C9_amended_debounce_rejected ⟨some 1, some "out", some 5, none, none⟩).2
      ⟨"out", 5, "INFO", .Auto⟩ (by rfl)⟩

/-! ## String helper lemmas -/

theorem ne_append_conflict (s ts : String) : s ≠ s ++ ".conflict_" ++ ts := by
  intro h
  have h1 := congrArg String.length h
  rw [String.length_append, String.length_append] at h1
  have h2 : (".conflict_" : String).length = 10 := rfl
  omega

/-! ## Claim C1: foreign mirror with differing content is skipped untouched -/

/-- C1: when the source and the mirror both exist as regular files, the
manifest has no entry for the key, and the hashes of source and mirror
differ, `sync_file` returns Skipped and leaves the whole state (source,
mirror, manifest, base cache) unchanged. -/
theorem claim_C1_skip_leaves_untouched (hash : String → String)
    (mergeFn : String → String → String → Option String) (ts : String) (now : Nat)
    (source mirror relPath : String) (st : SyncState) (cs cm : String) (ms mm : Nat)
    (hs : st.fs.lookup source = some (.file cs ms))
    (hm : st.fs.lookup mirror = some (.file cm mm))
    (hget : st.manifest.get relPath = none)
    (hne : hash cs ≠ hash cm) :
    sync_file hash mergeFn ts now source mirror st relPath = (.Skipped, st) := by
  unfold sync_file
  simp only [pathExists, isSymlink, readFile, hs, hm, hget]
  simp [hne]

/-- Witness for C1: a concrete foreign mirror file with different content
is left exactly as it was. -/
theorem claim_C1_witness :
    sync_file (fun s => s) (fun _ a _ => some a) "T" 7 "s/doc.md" "o/r/doc.md"
      ⟨⟨[("s/doc.md", .file "A" 1), ("o/r/doc.md", .file "B" 2)], []⟩, ⟨[]⟩, []⟩
      "r/doc.md" =
    (.Skipped, ⟨⟨[("s/doc.md", .file "A" 1), ("o/r/doc.md", .file "B" 2)], []⟩, ⟨[]⟩, []⟩) :=
  claim_C1_skip_leaves_untouched (fun s => s) (fun _ a _ => some a) "T" 7
    "s/doc.md" "o/r/doc.md" "r/doc.md" _ "A" "B" 1 2 (by decide) (by decide) (by decide)
    (by decide)

/-! ## Claim C2: claiming a byte-identical mirror file -/

/-- C2: when the source and the mirror both exist as regular files, the
manifest has no entry for the key, and the hashes agree, `sync_file`
returns Claimed; afterwards the manifest entry for the key holds the hash
of both source and mirror, a base-cache entry for the key holds the source
content, and no file content changed. -/
theorem claim_C2_claim_records_entry (hash : String → String)
    (mergeFn : String → String → String → Option String) (ts : String) (now : Nat)
    (source mirror relPath : String) (st : SyncState) (cs cm : String) (ms mm : Nat)
    (hs : st.fs.lookup source = some (.file cs ms))
    (hm : st.fs.lookup mirror = some (.file cm mm))
    (hget : st.manifest.get relPath = none)
    (heq : hash cs = hash cm) :
    (sync_file hash mergeFn ts now source mirror st relPath).1 = .Claimed ∧
    (sync_file hash mergeFn ts now source mirror st relPath).2.manifest.get relPath =
      some ⟨source, hash cs⟩ ∧
    hash cs = hash cm ∧
    lookupA (sync_file hash mergeFn ts now source mirror st relPath).2.base relPath = some cs ∧
    (sync_file hash mergeFn ts now source mirror st relPath).2.fs = st.fs := by
  have hres : sync_file hash mergeFn ts now source mirror st relPath =
      (.Claimed, ⟨st.fs, st.manifest.insertE relPath ⟨source, hash cs⟩,
        writeA st.base relPath cs⟩) := by
    unfold sync_file
    simp only [pathExists, isSymlink, readFile, hs, hm, hget]
    simp [heq]
  rw [hres]
  refine ⟨rfl, ?_, heq, ?_, rfl⟩
  · exact lookupA_writeA_self _ _ _
  · exact lookupA_writeA_self _ _ _

/-- Witness for C2: claiming a concrete byte-identical mirror file records
the manifest entry and the base content. -/
theorem claim_C2_witness :
    (sync_file (fun s => s) (fun _ a _ => some a) "T" 7 "s/doc.md" "o/r/doc.md"
      ⟨⟨[("s/doc.md", .file "A" 1), ("o/r/doc.md", .file "A" 2)], []⟩, ⟨[]⟩, []⟩
      "r/doc.md").1 = .Claimed ∧
    (sync_file (fun s => s) (fun _ a _ => some a) "T" 7 "s/doc.md" "o/r/doc.md"
      ⟨⟨[("s/doc.md", .file "A" 1), ("o/r/doc.md", .file "A" 2)], []⟩, ⟨[]⟩, []⟩
      "r/doc.md").2.manifest.get "r/doc.md" = some ⟨"s/doc.md", "A"⟩ ∧
    ("A" : String) = "A" ∧
    lookupA (sync_file (fun s => s) (fun _ a _ => some a) "T" 7 "s/doc.md" "o/r/doc.md"
      ⟨⟨[("s/doc.md", .file "A" 1), ("o/r/doc.md", .file "A" 2)], []⟩, ⟨[]⟩, []⟩
      "r/doc.md").2.base "r/doc.md" = some "A" ∧
    (sync_file (fun s => s) (fun _ a _ => some a) "T" 7 "s/doc.md" "o/r/doc.md"
      ⟨⟨[("s/doc.md", .file "A" 1), ("o/r/doc.md", .file "A" 2)], []⟩, ⟨[]⟩, []⟩
      "r/doc.md").2.fs = ⟨[("s/doc.md", .file "A" 1), ("o/r/doc.md", .file "A" 2)], []⟩ :=
  claim_C2_claim_records_entry (fun s => s) (fun _ a _ => some a) "T" 7
    "s/doc.md" "o/r/doc.md" "r/doc.md" _ "A" "A" 1 2 (by decide) (by decide) (by decide) rfl

/-! ## Claim C7: a symlink at the mirror location

The branch selection of the claim holds: `mirror.exists() &&
!mirror.is_symlink()` is false at a symlink, so the "source exists, mirror
absent" branch runs, inserts the manifest entry, writes the base entry and
returns Copied.  But the branch's `fs::copy(source, mirror)` opens the
mirror path through the link, so the content lands in the link's target
and the link itself survives: the core does follow a user-placed link on
this write, contradicting the final clause of the claim. -/

/-- C7 counterexample: at a concrete state whose mirror location is a
symlink to an out-of-tree target holding "secret", `sync_file` returns
Copied and the write goes through the link: the target's content becomes
the source content and the symlink is still there, so the path was
followed, contradicting the claim that the core never follows a
user-placed link out of the mirror tree. -/
theorem claim_C7_counterexample :
    (sync_file (fun s => s) (fun _ a _ => some a) "T" 7 "repo/doc.md" "out/r/doc.md"
      ⟨⟨[("repo/doc.md", .file "new" 0), ("out/r/doc.md", .symlink true "secret" 0)], []⟩,
        ⟨[]⟩, []⟩ "r/doc.md").1 = .Copied ∧
    (sync_file (fun s => s) (fun _ a _ => some a) "T" 7 "repo/doc.md" "out/r/doc.md"
      ⟨⟨[("repo/doc.md", .file "new" 0), ("out/r/doc.md", .symlink true "secret" 0)], []⟩,
        ⟨[]⟩, []⟩ "r/doc.md").2.fs.lookup "out/r/doc.md" = some (.symlink true "new" 7) := by
  decide

/-- C7 (amended): with the source a regular file and a symlink at the
mirror location, `sync_file` treats the mirror as absent for branch
selection: it takes the "source exists, mirror absent" branch, writes the
base-cache entry, inserts the manifest entry and returns Copied; the copy,
however, opens the mirror path through the link, so the source content is
written to the link's target and the symlink itself remains in place. -/
theorem claim_C7_amended_symlink_treated_absent (hash : String → String)
    (mergeFn : String → String → String → Option String) (ts : String) (now : Nat)
    (source mirror relPath : String) (st : SyncState) (cs : String) (ms : Nat)
    (tp : Bool) (tc : String) (tm : Nat)
    (hs : st.fs.lookup source = some (.file cs ms))
    (hm : st.fs.lookup mirror = some (.symlink tp tc tm)) :
    sync_file hash mergeFn ts now source mirror st relPath =
      (.Copied, ⟨writeFile st.fs mirror cs now,
        st.manifest.insertE relPath ⟨source, hash cs⟩,
        writeA st.base relPath cs⟩) ∧
    (writeFile st.fs mirror cs now).lookup mirror = some (.symlink true cs now) := by
  constructor
  · unfold sync_file
    simp only [pathExists, isSymlink, readFile, hs, hm]
    cases tp <;> simp
  · rw [FS.lookup_writeFile]
    simp [hm]

/-- Witness for C7 (amended): the concrete symlinked mirror location. -/
theorem claim_C7_witness :
    sync_file (fun s => s) (fun _ a _ => some a) "T" 7 "repo/doc.md" "out/r/doc.md"
      ⟨⟨[("repo/doc.md", .file "new" 0), ("out/r/doc.md", .symlink true "secret" 0)], []⟩,
        ⟨[]⟩, []⟩ "r/doc.md" =
      (.Copied, ⟨writeFile
          ⟨[("repo/doc.md", .file "new" 0), ("out/r/doc.md", .symlink true "secret" 0)], []⟩
          "out/r/doc.md" "new" 7,
        Manifest.insertE ⟨[]⟩ "r/doc.md" ⟨"repo/doc.md", "new"⟩,
        writeA [] "r/doc.md" "new"⟩) ∧
    (writeFile ⟨[("repo/doc.md", .file "new" 0), ("out/r/doc.md", .symlink true "secret" 0)], []⟩
        "out/r/doc.md" "new" 7).lookup "out/r/doc.md" = some (.symlink true "new" 7) :=
  claim_C7_amended_symlink_treated_absent (fun s => s) (fun _ a _ => some a) "T" 7
    "repo/doc.md" "out/r/doc.md" "r/doc.md" _ "new" 0 true "secret" 0 (by decide) (by decide)

/-! ## Conflict resolution characterization -/

/-- When the source mtime is at least the mirror mtime, `resolve_conflict`
saves the mirror content as the mirror-side conflict sibling, copies the
source over the mirror, and updates manifest and base to the source
content. -/
theorem resolve_conflict_source_wins (hash : String → String) (ts : String) (now : Nat)
    (source mirror relPath : String) (st : SyncState) (cs cm : String) (ms mm : Nat)
    (hs : st.fs.lookup source = some (.file cs ms))
    (hm : st.fs.lookup mirror = some (.file cm mm))
    (hge : mm ≤ ms)
    (hsm : source ≠ mirror)
    (hdist : source ≠ mirror ++ ".conflict_" ++ ts) :
    resolve_conflict hash ts now source mirror relPath st =
      (.Conflict, ⟨writeFile (writeFile st.fs (mirror ++ ".conflict_" ++ ts) cm now) mirror cs now,
        st.manifest.insertE relPath ⟨source, hash cs⟩,
        writeA st.base relPath cs⟩) := by
  have hr1 : readFile st.fs mirror = some cm := by simp [readFile, hm]
  have hl1 : (writeFile st.fs (mirror ++ ".conflict_" ++ ts) cm now).lookup source =
      some (.file cs ms) := by
    rw [FS.lookup_writeFile_ne _ _ _ hdist]; exact hs
  have hr2 : readFile (writeFile st.fs (mirror ++ ".conflict_" ++ ts) cm now) source =
      some cs := by
    simp [readFile, hl1]
  have hl3 : (writeFile (writeFile st.fs (mirror ++ ".conflict_" ++ ts) cm now) mirror cs
      now).lookup source = some (.file cs ms) := by
    rw [FS.lookup_writeFile_ne _ _ _ hsm]; exact hl1
  have hr3 : readFile (writeFile (writeFile st.fs (mirror ++ ".conflict_" ++ ts) cm now)
      mirror cs now) source = some cs := by
    simp [readFile, hl3]
  unfold resolve_conflict
  simp only [mtimeOf, hs, hm, save_conflict]
  rw [if_pos hge]
  simp only [hr1, hr2, hr3]

/-- When the mirror mtime is strictly newer, `resolve_conflict` saves the
source content as the source-side conflict sibling, copies the mirror over
the source, and updates manifest and base to the mirror content. -/
theorem resolve_conflict_mirror_wins (hash : String → String) (ts : String) (now : Nat)
    (source mirror relPath : String) (st : SyncState) (cs cm : String) (ms mm : Nat)
    (hs : st.fs.lookup source = some (.file cs ms))
    (hm : st.fs.lookup mirror = some (.file cm mm))
    (hlt : ms < mm)
    (hsm : mirror ≠ source)
    (hdist : mirror ≠ source ++ ".conflict_" ++ ts) :
    resolve_conflict hash ts now source mirror relPath st =
      (.Conflict, ⟨writeFile (writeFile st.fs (source ++ ".conflict_" ++ ts) cs now) source cm now,
        st.manifest.insertE relPath ⟨source, hash cm⟩,
        writeA st.base relPath cm⟩) := by
  have hr1 : readFile st.fs source = some cs := by simp [readFile, hs]
  have hl1 : (writeFile st.fs (source ++ ".conflict_" ++ ts) cs now).lookup mirror =
      some (.file cm mm) := by
    rw [FS.lookup_writeFile_ne _ _ _ hdist]; exact hm
  have hr2 : readFile (writeFile st.fs (source ++ ".conflict_" ++ ts) cs now) mirror =
      some cm := by
    simp [readFile, hl1]
  have hl3 : (writeFile (writeFile st.fs (source ++ ".conflict_" ++ ts) cs now) source cm
      now).lookup mirror = some (.file cm mm) := by
    rw [FS.lookup_writeFile_ne _ _ _ hsm]; exact hl1
  have hr3 : readFile (writeFile (writeFile st.fs (source ++ ".conflict_" ++ ts) cs now)
      source cm now) mirror = some cm := by
    simp [readFile, hl3]
  unfold resolve_conflict
  simp only [mtimeOf, hs, hm, save_conflict]
  rw [if_neg (by omega : ¬ mm ≤ ms)]
  simp only [hr1, hr2, hr3]

/-- `resolve_conflict` always reports the Conflict outcome. -/
theorem resolve_conflict_fst (hash : String → String) (ts : String) (now : Nat)
    (source mirror relPath : String) (st : SyncState) :
    (resolve_conflict hash ts now source mirror relPath st).1 = .Conflict := by
  unfold resolve_conflict
  try simp only []
  split
  · split
    · rfl
    · try simp only []
      split
      · rfl
      · try simp only []
        split
        · rfl
        · rfl
  · split
    · rfl
    · try simp only []
      split
      · rfl
      · try simp only []
        split
        · rfl
        · rfl

/-- `sync_file` dispatches to `resolve_conflict` when the entry is
present, all three hashes differ pairwise, and the base is missing or the
merge reports overlapping hunks. -/
theorem sync_file_conflict_dispatch (hash : String → String)
    (mergeFn : String → String → String → Option String) (ts : String) (now : Nat)
    (source mirror relPath : String) (st : SyncState) (cs cm : String) (ms mm : Nat)
    (entry : ManifestEntry)
    (hs : st.fs.lookup source = some (.file cs ms))
    (hm : st.fs.lookup mirror = some (.file cm mm))
    (hget : st.manifest.get relPath = some entry)
    (hsmne : hash cs ≠ hash cm)
    (hsh : hash cs ≠ entry.hash)
    (hmh : hash cm ≠ entry.hash)
    (hbase : lookupA st.base relPath = none ∨
      ∃ b, lookupA st.base relPath = some b ∧ mergeFn b cs cm = none) :
    sync_file hash mergeFn ts now source mirror st relPath =
      resolve_conflict hash ts now source mirror relPath st := by
  unfold sync_file
  simp only [pathExists, isSymlink, readFile, hs, hm, hget]
  rcases hbase with hb | ⟨b, hb, hmg⟩
  · simp [hsmne, hsh, hmh, hb]
  · simp [hsmne, hsh, hmh, hb, hmg]

/-! ## Claim C10: equal mtimes, the source side wins the tie -/

/-- C10: when `sync_file` resolves a conflict and source and mirror carry
exactly equal modification times, the source wins: the mirror content is
saved as the timestamped conflict sibling on the mirror side, the source
content is copied over the mirror, and the manifest hash becomes the hash
of the source content (the base-cache entry follows it). -/
theorem claim_C10_tie_source_wins (hash : String → String)
    (mergeFn : String → String → String → Option String) (ts : String) (now : Nat)
    (source mirror relPath : String) (st : SyncState) (cs cm : String) (mt : Nat)
    (entry : ManifestEntry)
    (hs : st.fs.lookup source = some (.file cs mt))
    (hm : st.fs.lookup mirror = some (.file cm mt))
    (hget : st.manifest.get relPath = some entry)
    (hsmne : hash cs ≠ hash cm)
    (hsh : hash cs ≠ entry.hash)
    (hmh : hash cm ≠ entry.hash)
    (hbase : lookupA st.base relPath = none ∨
      ∃ b, lookupA st.base relPath = some b ∧ mergeFn b cs cm = none)
    (hfresh : st.fs.lookup (mirror ++ ".conflict_" ++ ts) = none)
    (hdist : source ≠ mirror ++ ".conflict_" ++ ts) :
    (sync_file hash mergeFn ts now source mirror st relPath).1 = .Conflict ∧
    (sync_file hash mergeFn ts now source mirror st relPath).2.fs.lookup
      (mirror ++ ".conflict_" ++ ts) = some (.file cm now) ∧
    (sync_file hash mergeFn ts now source mirror st relPath).2.fs.lookup mirror =
      some (.file cs now) ∧
    (sync_file hash mergeFn ts now source mirror st relPath).2.manifest.get relPath =
      some ⟨source, hash cs⟩ := by
  have hsm : source ≠ mirror := by
    intro h
    rw [h, hm] at hs
    exact hsmne (by cases hs; rfl)
  have hres : sync_file hash mergeFn ts now source mirror st relPath =
      (.Conflict, ⟨writeFile (writeFile st.fs (mirror ++ ".conflict_" ++ ts) cm now)
          mirror cs now,
        st.manifest.insertE relPath ⟨source, hash cs⟩,
        writeA st.base relPath cs⟩) := by
    rw [sync_file_conflict_dispatch hash mergeFn ts now source mirror relPath st cs cm
      mt mt entry hs hm hget hsmne hsh hmh hbase]
    exact resolve_conflict_source_wins hash ts now source mirror relPath st cs cm mt mt
      hs hm le_rfl hsm hdist
  rw [hres]
  have hcne : (mirror ++ ".conflict_" ++ ts) ≠ mirror := (ne_append_conflict mirror ts).symm
  have hinner : (writeFile st.fs (mirror ++ ".conflict_" ++ ts) cm now).lookup mirror =
      some (.file cm mt) := by
    rw [FS.lookup_writeFile_ne _ _ _ (ne_append_conflict mirror ts)]
    exact hm
  refine ⟨rfl, ?_, ?_, ?_⟩
  · rw [FS.lookup_writeFile_ne _ _ _ hcne, FS.lookup_writeFile]
    simp [hfresh]
  · rw [FS.lookup_writeFile]
    simp [hinner]
  · exact lookupA_writeA_self _ _ _

/-- Witness for C10: a concrete conflicted file with equal mtimes; the
mirror's old content survives as the conflict sibling, the mirror now
holds the source content, and the manifest records the source hash. -/
theorem claim_C10_witness :
    (sync_file (fun s => s) (fun _ _ _ => none) "T" 9 "s/doc.md" "o/r/doc.md"
      ⟨⟨[("s/doc.md", .file "A" 4), ("o/r/doc.md", .file "B" 4)], []⟩,
        ⟨[("r/doc.md", ⟨"s/doc.md", "H"⟩)]⟩, []⟩ "r/doc.md").1 = .Conflict ∧
    (sync_file (fun s => s) (fun _ _ _ => none) "T" 9 "s/doc.md" "o/r/doc.md"
      ⟨⟨[("s/doc.md", .file "A" 4), ("o/r/doc.md", .file "B" 4)], []⟩,
        ⟨[("r/doc.md", ⟨"s/doc.md", "H"⟩)]⟩, []⟩ "r/doc.md").2.fs.lookup
      ("o/r/doc.md" ++ ".conflict_" ++ "T") = some (.file "B" 9) ∧
    (sync_file (fun s => s) (fun _ _ _ => none) "T" 9 "s/doc.md" "o/r/doc.md"
      ⟨⟨[("s/doc.md", .file "A" 4), ("o/r/doc.md", .file "B" 4)], []⟩,
        ⟨[("r/doc.md", ⟨"s/doc.md", "H"⟩)]⟩, []⟩ "r/doc.md").2.fs.lookup "o/r/doc.md" =
      some (.file "A" 9) ∧
    (sync_file (fun s => s) (fun _ _ _ => none) "T" 9 "s/doc.md" "o/r/doc.md"
      ⟨⟨[("s/doc.md", .file "A" 4), ("o/r/doc.md", .file "B" 4)], []⟩,
        ⟨[("r/doc.md", ⟨"s/doc.md", "H"⟩)]⟩, []⟩ "r/doc.md").2.manifest.get "r/doc.md" =
      some ⟨"s/doc.md", "A"⟩ :=
  claim_C10_tie_source_wins (fun s => s) (fun _ _ _ => none) "T" 9 "s/doc.md" "o/r/doc.md"
    "r/doc.md" _ "A" "B" 4 ⟨"s/doc.md", "H"⟩ (by decide) (by decide) (by decide)
    (by decide) (by decide) (by decide) (Or.inl (by decide)) (by decide) (by decide)

/-! ## Claim C5: conflict resolution keeps the newer side -/

/-- C5: whenever `sync_file` resolves a conflict (manifest entry present,
all three hashes pairwise different, and the base-cache entry missing or
the merge overlapping), the outcome is Conflict and the newer mtime wins:
the loser's content is preserved as the sibling `<name>.conflict_<ts>` in
the loser's own directory, the winner's content is copied into the loser's
location (the winner's own file is untouched), and the manifest hash and
the base-cache entry take the winning content.  The two conflict sibling
names are assumed fresh and distinct from the two live files. -/
theorem claim_C5_newest_wins (hash : String → String)
    (mergeFn : String → String → String → Option String) (ts : String) (now : Nat)
    (source mirror relPath : String) (st : SyncState) (cs cm : String) (ms mm : Nat)
    (entry : ManifestEntry)
    (hs : st.fs.lookup source = some (.file cs ms))
    (hm : st.fs.lookup mirror = some (.file cm mm))
    (hget : st.manifest.get relPath = some entry)
    (hsmne : hash cs ≠ hash cm)
    (hsh : hash cs ≠ entry.hash)
    (hmh : hash cm ≠ entry.hash)
    (hbase : lookupA st.base relPath = none ∨
      ∃ b, lookupA st.base relPath = some b ∧ mergeFn b cs cm = none)
    (hfreshM : st.fs.lookup (mirror ++ ".conflict_" ++ ts) = none)
    (hfreshS : st.fs.lookup (source ++ ".conflict_" ++ ts) = none)
    (hdistS : source ≠ mirror ++ ".conflict_" ++ ts)
    (hdistM : mirror ≠ source ++ ".conflict_" ++ ts) :
    (sync_file hash mergeFn ts now source mirror st relPath).1 = .Conflict ∧
    (mm < ms →
      (sync_file hash mergeFn ts now source mirror st relPath).2.fs.lookup
        (mirror ++ ".conflict_" ++ ts) = some (.file cm now) ∧
      (sync_file hash mergeFn ts now source mirror st relPath).2.fs.lookup mirror =
        some (.file cs now) ∧
      (sync_file hash mergeFn ts now source mirror st relPath).2.fs.lookup source =
        some (.file cs ms) ∧
      (sync_file hash mergeFn ts now source mirror st relPath).2.manifest.get relPath =
        some ⟨source, hash cs⟩ ∧
      lookupA (sync_file hash mergeFn ts now source mirror st relPath).2.base relPath =
        some cs) ∧
    (ms < mm →
      (sync_file hash mergeFn ts now source mirror st relPath).2.fs.lookup
        (source ++ ".conflict_" ++ ts) = some (.file cs now) ∧
      (sync_file hash mergeFn ts now source mirror st relPath).2.fs.lookup source =
        some (.file cm now) ∧
      (sync_file hash mergeFn ts now source mirror st relPath).2.fs.lookup mirror =
        some (.file cm mm) ∧
      (sync_file hash mergeFn ts now source mirror st relPath).2.manifest.get relPath =
        some ⟨source, hash cm⟩ ∧
      lookupA (sync_file hash mergeFn ts now source mirror st relPath).2.base relPath =
        some cm) := by
  have hsm : source ≠ mirror := by
    intro h
    rw [h, hm] at hs
    exact hsmne (by cases hs; rfl)
  have hdisp : sync_file hash mergeFn ts now source mirror st relPath =
      resolve_conflict hash ts now source mirror relPath st :=
    sync_file_conflict_dispatch hash mergeFn ts now source mirror relPath st cs cm ms mm
      entry hs hm hget hsmne hsh hmh hbase
  refine ⟨?_, ?_, ?_⟩
  · rw [hdisp]
    exact resolve_conflict_fst hash ts now source mirror relPath st
  · intro hlt
    have hres := resolve_conflict_source_wins hash ts now source mirror relPath st cs cm
      ms mm hs hm (le_of_lt hlt) hsm hdistS
    rw [hdisp, hres]
    have hcne : (mirror ++ ".conflict_" ++ ts) ≠ mirror := (ne_append_conflict mirror ts).symm
    have hinner : (writeFile st.fs (mirror ++ ".conflict_" ++ ts) cm now).lookup mirror =
        some (.file cm mm) := by
      rw [FS.lookup_writeFile_ne _ _ _ (ne_append_conflict mirror ts)]
      exact hm
    have hinnerS : (writeFile st.fs (mirror ++ ".conflict_" ++ ts) cm now).lookup source =
        some (.file cs ms) := by
      rw [FS.lookup_writeFile_ne _ _ _ hdistS]
      exact hs
    refine ⟨?_, ?_, ?_, ?_, ?_⟩
    · rw [FS.lookup_writeFile_ne _ _ _ hcne, FS.lookup_writeFile]
      simp [hfreshM]
    · rw [FS.lookup_writeFile]
      simp [hinner]
    · rw [FS.lookup_writeFile_ne _ _ _ hsm]
      exact hinnerS
    · exact lookupA_writeA_self _ _ _
    · exact lookupA_writeA_self _ _ _
  · intro hlt
    have hres := resolve_conflict_mirror_wins hash ts now source mirror relPath st cs cm
      ms mm hs hm hlt (Ne.symm hsm) hdistM
    rw [hdisp, hres]
    have hcne : (source ++ ".conflict_" ++ ts) ≠ source := (ne_append_conflict source ts).symm
    have hinner : (writeFile st.fs (source ++ ".conflict_" ++ ts) cs now).lookup source =
        some (.file cs ms) := by
      rw [FS.lookup_writeFile_ne _ _ _ (ne_append_conflict source ts)]
      exact hs
    have hinnerM : (writeFile st.fs (source ++ ".conflict_" ++ ts) cs now).lookup mirror =
        some (.file cm mm) := by
      rw [FS.lookup_writeFile_ne _ _ _ hdistM]
      exact hm
    refine ⟨?_, ?_, ?_, ?_, ?_⟩
    · rw [FS.lookup_writeFile_ne _ _ _ hcne, FS.lookup_writeFile]
      simp [hfreshS]
    · rw [FS.lookup_writeFile]
      simp [hinner]
    · rw [FS.lookup_writeFile_ne _ _ _ (Ne.symm hsm)]
      exact hinnerM
    · exact lookupA_writeA_self _ _ _
    · exact lookupA_writeA_self _ _ _

/-- Witness for C5: the concrete conflicted file of the C10 witness but
with a strictly newer source (mtimes 5 over 3); the mirror-side conflict
sibling holds the old mirror content and the mirror holds the source
content. -/
theorem claim_C5_witness :
    (sync_file (fun s => s) (fun _ _ _ => none) "T" 9 "s2/doc.md" "o2/r/doc.md"
      ⟨⟨[("s2/doc.md", .file "A" 5), ("o2/r/doc.md", .file "B" 3)], []⟩,
        ⟨[("r/doc.md", ⟨"s2/doc.md", "H"⟩)]⟩, []⟩ "r/doc.md").1 = .Conflict ∧
    ((3 : Nat) < 5 →
      (sync_file (fun s => s) (fun _ _ _ => none) "T" 9 "s2/doc.md" "o2/r/doc.md"
        ⟨⟨[("s2/doc.md", .file "A" 5), ("o2/r/doc.md", .file "B" 3)], []⟩,
          ⟨[("r/doc.md", ⟨"s2/doc.md", "H"⟩)]⟩, []⟩ "r/doc.md").2.fs.lookup
        ("o2/r/doc.md" ++ ".conflict_" ++ "T") = some (.file "B" 9) ∧
      (sync_file (fun s => s) (fun _ _ _ => none) "T" 9 "s2/doc.md" "o2/r/doc.md"
        ⟨⟨[("s2/doc.md", .file "A" 5), ("o2/r/doc.md", .file "B" 3)], []⟩,
          ⟨[("r/doc.md", ⟨"s2/doc.md", "H"⟩)]⟩, []⟩ "r/doc.md").2.fs.lookup "o2/r/doc.md" =
        some (.file "A" 9) ∧
      (sync_file (fun s => s) (fun _ _ _ => none) "T" 9 "s2/doc.md" "o2/r/doc.md"
        ⟨⟨[("s2/doc.md", .file "A" 5), ("o2/r/doc.md", .file "B" 3)], []⟩,
          ⟨[("r/doc.md", ⟨"s2/doc.md", "H"⟩)]⟩, []⟩ "r/doc.md").2.fs.lookup "s2/doc.md" =
        some (.file "A" 5) ∧
      (sync_file (fun s => s) (fun _ _ _ => none) "T" 9 "s2/doc.md" "o2/r/doc.md"
        ⟨⟨[("s2/doc.md", .file "A" 5), ("o2/r/doc.md", .file "B" 3)], []⟩,
          ⟨[("r/doc.md", ⟨"s2/doc.md", "H"⟩)]⟩, []⟩ "r/doc.md").2.manifest.get "r/doc.md" =
        some ⟨"s2/doc.md", "A"⟩ ∧
      lookupA (sync_file (fun s => s) (fun _ _ _ => none) "T" 9 "s2/doc.md" "o2/r/doc.md"
        ⟨⟨[("s2/doc.md", .file "A" 5), ("o2/r/doc.md", .file "B" 3)], []⟩,
          ⟨[("r/doc.md", ⟨"s2/doc.md", "H"⟩)]⟩, []⟩ "r/doc.md").2.base "r/doc.md" =
        some "A") ∧
    ((5 : Nat) < 3 →
      (sync_file (fun s => s) (fun _ _ _ => none) "T" 9 "s2/doc.md" "o2/r/doc.md"
        ⟨⟨[("s2/doc.md", .file "A" 5), ("o2/r/doc.md", .file "B" 3)], []⟩,
          ⟨[("r/doc.md", ⟨"s2/doc.md", "H"⟩)]⟩, []⟩ "r/doc.md").2.fs.lookup
        ("s2/doc.md" ++ ".conflict_" ++ "T") = some (.file "A" 9) ∧
      (sync_file (fun s => s) (fun _ _ _ => none) "T" 9 "s2/doc.md" "o2/r/doc.md"
        ⟨⟨[("s2/doc.md", .file "A" 5), ("o2/r/doc.md", .file "B" 3)], []⟩,
          ⟨[("r/doc.md", ⟨"s2/doc.md", "H"⟩)]⟩, []⟩ "r/doc.md").2.fs.lookup "s2/doc.md" =
        some (.file "B" 9) ∧
      (sync_file (fun s => s) (fun _ _ _ => none) "T" 9 "s2/doc.md" "o2/r/doc.md"
        ⟨⟨[("s2/doc.md", .file "A" 5), ("o2/r/doc.md", .file "B" 3)], []⟩,
          ⟨[("r/doc.md", ⟨"s2/doc.md", "H"⟩)]⟩, []⟩ "r/doc.md").2.fs.lookup "o2/r/doc.md" =
        some (.file "B" 3) ∧
      (sync_file (fun s => s) (fun _ _ _ => none) "T" 9 "s2/doc.md" "o2/r/doc.md"
        ⟨⟨[("s2/doc.md", .file "A" 5), ("o2/r/doc.md", .file "B" 3)], []⟩,
          ⟨[("r/doc.md", ⟨"s2/doc.md", "H"⟩)]⟩, []⟩ "r/doc.md").2.manifest.get "r/doc.md" =
        some ⟨"s2/doc.md", "B"⟩ ∧
      lookupA (sync_file (fun s => s) (fun _ _ _ => none) "T" 9 "s2/doc.md" "o2/r/doc.md"
        ⟨⟨[("s2/doc.md", .file "A" 5), ("o2/r/doc.md", .file "B" 3)], []⟩,
          ⟨[("r/doc.md", ⟨"s2/doc.md", "H"⟩)]⟩, []⟩ "r/doc.md").2.base "r/doc.md" =
        some "B") :=
  claim_C5_newest_wins (fun s => s) (fun _ _ _ => none) "T" 9 "s2/doc.md" "o2/r/doc.md"
    "r/doc.md" _ "A" "B" 5 3 ⟨"s2/doc.md", "H"⟩ (by decide) (by decide) (by decide)
    (by decide) (by decide) (by decide) (Or.inl (by decide)) (by decide) (by decide)
    (by decide) (by decide)

/-! ## Path disjointness lemmas for the scan theorems -/

section PathLemmas

theorem sepPre_append (a x : String) : (a ++ "/").data <+: (a ++ "/" ++ x).data := by
  rw [String.data_append]
  exact List.prefix_append _ _

theorem append_root_inj {a x y : String} (h : a ++ "/" ++ x = a ++ "/" ++ y) : x = y := by
  apply String.ext
  have hd := congrArg String.data h
  rw [String.data_append, String.data_append] at hd
  exact List.append_cancel_left hd

/-- Two paths under not-nested roots are never equal. -/
theorem ne_of_notNested {a b : String} (h : NotNested a b) (x y : String) :
    a ++ "/" ++ x ≠ b ++ "/" ++ y := by
  intro heq
  have h1 : (a ++ "/").data <+: (b ++ "/" ++ y).data := by
    rw [← heq]; exact sepPre_append a x
  have h2 : (b ++ "/").data <+: (b ++ "/" ++ y).data := sepPre_append b y
  rcases List.prefix_or_prefix_of_prefix h1 h2 with hp | hp
  · exact h.1 hp
  · exact h.2 hp

/-- A path under a root is not under a not-nested other root. -/
theorem not_under_of_notNested {a b : String} (h : NotNested a b) (x : String) :
    ¬ (a ++ "/").data <+: (b ++ "/" ++ x).data := by
  intro h1
  rcases List.prefix_or_prefix_of_prefix h1 (sepPre_append b x) with hp | hp
  · exact h.1 hp
  · exact h.2 hp

theorem notNested_symm {a b : String} (h : NotNested a b) : NotNested b a :=
  ⟨h.2, h.1⟩

theorem srcP_inj (repo : RepoConfig) {r r' : String} (h : srcP repo r = srcP repo r') :
    r = r' := append_root_inj h

theorem keyP_inj (repo : RepoConfig) {r r' : String} (h : keyP repo r = keyP repo r') :
    r = r' := append_root_inj h

theorem mirP_inj (outputDir : String) (repo : RepoConfig) {r r' : String}
    (h : mirP outputDir repo r = mirP outputDir repo r') : r = r' := by
  have h1 : keyP repo r = keyP repo r' := by
    unfold mirP at h
    exact append_root_inj h
  exact keyP_inj repo h1

/-- Keys of not-nested repo names differ. -/
theorem keyP_ne_of_names (repo repo' : RepoConfig) (h : NotNested repo.name repo'.name)
    (r r' : String) : keyP repo r ≠ keyP repo' r' :=
  ne_of_notNested h r r'

/-- Mirror paths of not-nested repo names differ. -/
theorem mirP_ne_of_names (outputDir : String) (repo repo' : RepoConfig)
    (h : NotNested repo.name repo'.name) (r r' : String) :
    mirP outputDir repo r ≠ mirP outputDir repo' r' := by
  intro heq
  unfold mirP at heq
  exact keyP_ne_of_names repo repo' h r r' (append_root_inj heq)

/-- A mirror path (under the output root) differs from any source path of
a repo whose root is not nested with the output root. -/
theorem mirP_ne_srcP (outputDir : String) (repo repo' : RepoConfig)
    (h : NotNested outputDir repo'.path) (r r' : String) :
    mirP outputDir repo r ≠ srcP repo' r' :=
  ne_of_notNested h (keyP repo r) r'

/-- Source paths of repos with not-nested roots differ. -/
theorem srcP_ne_of_roots (repo repo' : RepoConfig) (h : NotNested repo.path repo'.path)
    (r r' : String) : srcP repo r ≠ srcP repo' r' :=
  ne_of_notNested h r r'

/-- A mirror path never lies under a repo root that is not nested with the
output root (so mirror writes are invisible to the walk). -/
theorem mirP_not_under_root (outputDir : String) (repo repo' : RepoConfig)
    (h : NotNested outputDir repo'.path) (r : String) :
    ¬ (repo'.path ++ "/").data <+: (mirP outputDir repo r).data :=
  not_under_of_notNested (notNested_symm h) (keyP repo r)

end PathLemmas

/-! ## Membership and preservation lemmas -/

section PreservationLemmas

variable {α : Type}

theorem lookupA_mem {l : List (String × α)} {k : String} {v : α}
    (h : lookupA l k = some v) : (k, v) ∈ l := by
  induction l with
  | nil => simp [lookupA] at h
  | cons kv t ih =>
    obtain ⟨q, w⟩ := kv
    by_cases hq : q = k
    · subst hq
      simp [lookupA_cons] at h
      simp [h]
    · rw [lookupA_cons, if_neg hq] at h
      exact List.mem_cons_of_mem _ (ih h)

theorem mem_writeA {l : List (String × α)} {k : String} {v : α} {kv : String × α}
    (h : kv ∈ writeA l k v) : kv ∈ l ∨ kv = (k, v) := by
  induction l with
  | nil =>
    simp [writeA] at h
    exact Or.inr (by simp [h])
  | cons qw t ih =>
    obtain ⟨q, w⟩ := qw
    by_cases hq : q = k
    · subst hq
      simp only [writeA, if_pos rfl] at h
      rcases List.mem_cons.mp h with h | h
      · exact Or.inr (by simp [h])
      · exact Or.inl (List.mem_cons_of_mem _ h)
    · simp only [writeA, if_neg hq] at h
      rcases List.mem_cons.mp h with h | h
      · exact Or.inl (by simp [h])
      · rcases ih h with h' | h'
        · exact Or.inl (List.mem_cons_of_mem _ h')
        · exact Or.inr h'

theorem noSym_lookup {fs : FS} {p : String} {n : FsNode}
    (hns : noSymP fs) (h : fs.lookup p = some n) : isFileNode n = true :=
  hns (p, n) (lookupA_mem h)

/-- With no symlinks present, a write always installs a regular file. -/
theorem writeFile_eq_of_noSym {fs : FS} (hns : noSymP fs) (p c : String) (now : Nat) :
    writeFile fs p c now = ⟨writeA fs.files p (.file c now), fs.dirs⟩ := by
  unfold writeFile
  cases h : fs.lookup p with
  | none => rfl
  | some n =>
    cases n with
    | file _ _ => rfl
    | symlink tp tc tm => exact absurd (noSym_lookup hns h) (by simp [isFileNode])

theorem noSym_writeFile {fs : FS} (hns : noSymP fs) (p c : String) (now : Nat) :
    noSymP (writeFile fs p c now) := by
  rw [writeFile_eq_of_noSym hns]
  intro kv hkv
  rcases mem_writeA hkv with h | h
  · exact hns kv h
  · rw [h]; rfl

/-- Some node is written; the key set grows by at most `p`. -/
theorem writeFile_files_eq (fs : FS) (p c : String) (now : Nat) :
    ∃ n, (writeFile fs p c now).files = writeA fs.files p n := by
  unfold writeFile
  cases h : fs.lookup p with
  | none => exact ⟨.file c now, rfl⟩
  | some n => cases n <;> exact ⟨_, rfl⟩

theorem nodup_writeFile {fs : FS} (h : (keysA fs.files).Nodup) (p c : String) (now : Nat) :
    (keysA (writeFile fs p c now).files).Nodup := by
  obtain ⟨n, hn⟩ := writeFile_files_eq fs p c now
  rw [hn]
  exact nodup_keysA_writeA _ _ _ h

theorem pathExists_writeFile_mono {fs : FS} {q : String} (p c : String) (now : Nat)
    (h : pathExists fs q = true) : pathExists (writeFile fs p c now) q = true := by
  unfold pathExists at *
  rw [FS.lookup_writeFile]
  by_cases hq : q = p
  · subst hq
    simp only [if_pos rfl]
    cases hn : fs.lookup q with
    | none => simp
    | some n => cases n <;> simp
  · rw [if_neg hq]
    exact h

theorem lookup_writeFile_isSome {fs : FS} {q : String} (p c : String) (now : Nat)
    (h : (writeFile fs p c now).lookup q ≠ none) : fs.lookup q ≠ none ∨ q = p := by
  by_cases hq : q = p
  · exact Or.inr hq
  · rw [FS.lookup_writeFile, if_neg hq] at h
    exact Or.inl h

theorem fileAt_of_noSym {fs : FS} {p : String} (hns : noSymP fs)
    (h : pathExists fs p = true) : ∃ c m, fs.lookup p = some (.file c m) := by
  unfold pathExists at h
  cases hn : fs.lookup p with
  | none => rw [hn] at h; cases h
  | some n =>
    cases n with
    | file c m => exact ⟨c, m, rfl⟩
    | symlink tp tc tm => exact absurd (noSym_lookup hns hn) (by simp [isFileNode])

end PreservationLemmas

/-! ## Branch characterizations of sync_file (regular-file shapes) -/

section SyncBranches

variable (hash : String → String) (mergeFn : String → String → String → Option String)
variable (ts : String) (now : Nat) (source mirror relPath : String) (st : SyncState)

theorem sync_eq_copied_new {cs : String} {ms : Nat}
    (hs : st.fs.lookup source = some (.file cs ms))
    (hmir : st.fs.lookup mirror = none) :
    sync_file hash mergeFn ts now source mirror st relPath =
      (.Copied, ⟨writeFile st.fs mirror cs now,
        st.manifest.insertE relPath ⟨source, hash cs⟩,
        writeA st.base relPath cs⟩) := by
  unfold sync_file
  simp [pathExists, isSymlink, readFile, hs, hmir]

theorem sync_eq_claimed {cs cm : String} {ms mm : Nat}
    (hs : st.fs.lookup source = some (.file cs ms))
    (hm : st.fs.lookup mirror = some (.file cm mm))
    (hget : st.manifest.get relPath = none)
    (heq : hash cs = hash cm) :
    sync_file hash mergeFn ts now source mirror st relPath =
      (.Claimed, ⟨st.fs, st.manifest.insertE relPath ⟨source, hash cs⟩,
        writeA st.base relPath cs⟩) := by
  unfold sync_file
  simp only [pathExists, isSymlink, readFile, hs, hm, hget]
  simp [eq_true heq]

theorem sync_eq_skipped_foreign {cs cm : String} {ms mm : Nat}
    (hs : st.fs.lookup source = some (.file cs ms))
    (hm : st.fs.lookup mirror = some (.file cm mm))
    (hget : st.manifest.get relPath = none)
    (hne : hash cs ≠ hash cm) :
    sync_file hash mergeFn ts now source mirror st relPath = (.Skipped, st) := by
  unfold sync_file
  simp only [pathExists, isSymlink, readFile, hs, hm, hget]
  simp [hne]

theorem sync_eq_insync_nowrite {cs cm : String} {ms mm : Nat} {e : ManifestEntry}
    (hs : st.fs.lookup source = some (.file cs ms))
    (hm : st.fs.lookup mirror = some (.file cm mm))
    (hget : st.manifest.get relPath = some e)
    (heq : hash cs = hash cm)
    (hhash : e.hash = hash cs) :
    sync_file hash mergeFn ts now source mirror st relPath = (.AlreadyInSync, st) := by
  unfold sync_file
  simp only [pathExists, isSymlink, readFile, hs, hm, hget]
  have hcond : (e.hash ≠ hash cs) = False := eq_false (by simp [hhash])
  simp [eq_true heq, hcond]

theorem sync_eq_insync_refresh {cs cm : String} {ms mm : Nat} {e : ManifestEntry}
    (hs : st.fs.lookup source = some (.file cs ms))
    (hm : st.fs.lookup mirror = some (.file cm mm))
    (hget : st.manifest.get relPath = some e)
    (heq : hash cs = hash cm)
    (hhash : e.hash ≠ hash cs) :
    sync_file hash mergeFn ts now source mirror st relPath =
      (.AlreadyInSync, ⟨st.fs, st.manifest.insertE relPath ⟨source, hash cs⟩,
        writeA st.base relPath cs⟩) := by
  unfold sync_file
  simp only [pathExists, isSymlink, readFile, hs, hm, hget]
  simp [eq_true heq, eq_true hhash]

theorem sync_eq_copy_back {cs cm : String} {ms mm : Nat} {e : ManifestEntry}
    (hs : st.fs.lookup source = some (.file cs ms))
    (hm : st.fs.lookup mirror = some (.file cm mm))
    (hget : st.manifest.get relPath = some e)
    (hne : hash cs ≠ hash cm)
    (h1 : hash cs = e.hash) :
    sync_file hash mergeFn ts now source mirror st relPath =
      (.Copied, ⟨writeFile st.fs source cm now,
        st.manifest.insertE relPath ⟨source, hash cm⟩,
        writeA st.base relPath cm⟩) := by
  unfold sync_file
  simp only [pathExists, isSymlink, readFile, hs, hm, hget]
  simp [eq_false hne, eq_true h1]

theorem sync_eq_copy_forward {cs cm : String} {ms mm : Nat} {e : ManifestEntry}
    (hs : st.fs.lookup source = some (.file cs ms))
    (hm : st.fs.lookup mirror = some (.file cm mm))
    (hget : st.manifest.get relPath = some e)
    (hne : hash cs ≠ hash cm)
    (h1 : hash cs ≠ e.hash)
    (h2 : hash cm = e.hash) :
    sync_file hash mergeFn ts now source mirror st relPath =
      (.Copied, ⟨writeFile st.fs mirror cs now,
        st.manifest.insertE relPath ⟨source, hash cs⟩,
        writeA st.base relPath cs⟩) := by
  unfold sync_file
  simp only [pathExists, isSymlink, readFile, hs, hm, hget]
  simp [eq_false hne, eq_false h1, eq_true h2]

theorem sync_eq_merged {cs cm b merged : String} {ms mm : Nat} {e : ManifestEntry}
    (hs : st.fs.lookup source = some (.file cs ms))
    (hm : st.fs.lookup mirror = some (.file cm mm))
    (hget : st.manifest.get relPath = some e)
    (hne : hash cs ≠ hash cm)
    (h1 : hash cs ≠ e.hash)
    (h2 : hash cm ≠ e.hash)
    (hb : lookupA st.base relPath = some b)
    (hmg : mergeFn b cs cm = some merged) :
    sync_file hash mergeFn ts now source mirror st relPath =
      (.Merged, ⟨writeFile (writeFile st.fs source merged now) mirror merged now,
        st.manifest.insertE relPath ⟨source, hash merged⟩,
        writeA st.base relPath merged⟩) := by
  unfold sync_file
  simp only [pathExists, isSymlink, readFile, hs, hm, hget]
  simp [eq_false hne, eq_false h1, eq_false h2, hb, hmg]

end SyncBranches

/-! ## Walk lemmas -/

section WalkLemmas

/-- The walk as a function of the key list (usable when no symlinks are
present). -/
def keysWalk (keys : List String) (repo : RepoConfig) : List String :=
  keys.filterMap fun p =>
    match underRoot repo.path p with
    | none => none
    | some rel =>
      if (ancestorDirs rel).all (fun d => should_descend d repo.ex) then some rel
      else none

theorem walkFiles_eq_keysWalk (fs : FS) (repo : RepoConfig) (hns : noSymP fs) :
    walkFiles fs repo = keysWalk (keysA fs.files) repo := by
  unfold walkFiles keysWalk keysA
  rw [List.filterMap_map]
  apply List.filterMap_congr
  intro kv hkv
  have hf := hns kv hkv
  cases hn : kv.2 with
  | file c m => simp [Function.comp]
  | symlink tp tc tm => rw [hn] at hf; simp [isFileNode] at hf

theorem keysWalk_append (a b : List String) (repo : RepoConfig) :
    keysWalk (a ++ b) repo = keysWalk a repo ++ keysWalk b repo := by
  unfold keysWalk
  exact List.filterMap_append _ _ _

theorem underRoot_eq_none {root p : String} (h : ¬ (root ++ "/").data <+: p.data) :
    underRoot root p = none := by
  unfold underRoot
  rw [if_neg]
  intro hc
  exact h ((List.isPrefixOf_iff_prefix).mp hc)

theorem keysWalk_nil_of_not_under {keys : List String} {repo : RepoConfig}
    (h : ∀ k ∈ keys, ¬ (repo.path ++ "/").data <+: k.data) :
    keysWalk keys repo = [] := by
  unfold keysWalk
  rw [List.filterMap_eq_nil_iff]
  intro k hk
  rw [underRoot_eq_none (h k hk)]

theorem underRoot_some {root p rel : String} (h : underRoot root p = some rel) :
    p = root ++ "/" ++ rel := by
  unfold underRoot at h
  split at h
  case isTrue hpre =>
    cases h
    apply String.ext
    obtain ⟨rest, hrest⟩ := (List.isPrefixOf_iff_prefix).mp hpre
    have hlen : (root ++ "/").data.length = root.length + 1 := by
      rw [String.data_append, List.length_append]
      rfl
    have hreldata : (⟨p.data.drop (root.length + 1)⟩ : String).data = rest := by
      show p.data.drop (root.length + 1) = rest
      rw [← hrest, ← hlen, List.drop_left]
    calc p.data = (root ++ "/").data ++ rest := hrest.symm
      _ = (root ++ "/").data ++ (⟨p.data.drop (root.length + 1)⟩ : String).data := by
          rw [hreldata]
      _ = ((root ++ "/") ++ ⟨p.data.drop (root.length + 1)⟩).data :=
          (String.data_append _ _).symm
  case isFalse => exact Option.noConfusion h

theorem keysWalk_entry_some {repo : RepoConfig} {x rel : String}
    (hx : (match underRoot repo.path x with
      | none => none
      | some r =>
        if (ancestorDirs r).all (fun d => should_descend d repo.ex) then some r
        else none) = some rel) :
    x = repo.path ++ "/" ++ rel := by
  cases hux : underRoot repo.path x with
  | none => rw [hux] at hx; exact Option.noConfusion hx
  | some r =>
    rw [hux] at hx
    have hx' : (if ((ancestorDirs r).all fun d => should_descend d repo.ex) = true
        then some r else none) = some rel := hx
    by_cases hc : ((ancestorDirs r).all (fun d => should_descend d repo.ex)) = true
    · rw [if_pos hc] at hx'
      cases hx'
      exact underRoot_some hux
    · rw [if_neg hc] at hx'
      exact Option.noConfusion hx'

/-- On a duplicate-free key list the walk is duplicate-free. -/
theorem keysWalk_nodup {keys : List String} (repo : RepoConfig) (h : keys.Nodup) :
    (keysWalk keys repo).Nodup := by
  unfold keysWalk
  apply List.Nodup.filterMap ?_ h
  intro a b rel ha hb
  rw [keysWalk_entry_some ha, keysWalk_entry_some hb]

/-- `isDir` as a function of keys and dirs. -/
theorem isDir_eq (fs : FS) (p : String) :
    isDir fs p = (fs.dirs.any (fun q => q = p) ||
      (keysA fs.files).any (fun k => (p ++ "/").data.isPrefixOf k.data)) := by
  unfold isDir keysA
  congr 1
  induction fs.files with
  | nil => rfl
  | cons kv t ih =>
    simp only [List.any_cons, List.map_cons]
    rw [ih]

theorem walkFiles_nil_of_not_isDir (fs : FS) (repo : RepoConfig)
    (h : isDir fs repo.path = false) (hns : noSymP fs) :
    walkFiles fs repo = [] := by
  rw [walkFiles_eq_keysWalk fs repo hns]
  apply keysWalk_nil_of_not_under
  intro k hk hpre
  rw [isDir_eq] at h
  have h2 := (Bool.or_eq_false_iff.mp h).2
  rw [List.any_eq_false] at h2
  exact absurd ((List.isPrefixOf_iff_prefix).mpr hpre) (by simpa using h2 k hk)

end WalkLemmas

/-! ## Tally and fold helpers -/

section TallyLemmas

theorem tally_conflicts_ge (r : ScanResult) (o : SyncOutcome) :
    r.conflicts ≤ (tally r o).conflicts := by
  cases o <;> simp [tally]

theorem tally_conflicts_of_ne (r : ScanResult) (o : SyncOutcome) (h : o ≠ .Conflict) :
    (tally r o).conflicts = r.conflicts := by
  cases o <;> simp_all [tally]

theorem syncStep_conflicts_ge (hash : String → String)
    (mergeFn : String → String → String → Option String) (ts : String) (now : Nat)
    (repo : RepoConfig) (O : String) (acc : ScanResult × SyncState) (rel : String) :
    acc.1.conflicts ≤ (syncStep hash mergeFn ts now repo O acc rel).1.conflicts := by
  unfold syncStep
  split
  · exact tally_conflicts_ge _ _
  · exact le_rfl

theorem syncStep_foldl_conflicts_ge (hash : String → String)
    (mergeFn : String → String → String → Option String) (ts : String) (now : Nat)
    (repo : RepoConfig) (O : String) (l : List String) :
    ∀ acc : ScanResult × SyncState,
      acc.1.conflicts ≤ (l.foldl (syncStep hash mergeFn ts now repo O) acc).1.conflicts := by
  induction l with
  | nil => intro acc; exact le_rfl
  | cons rel t ih =>
    intro acc
    calc acc.1.conflicts ≤ (syncStep hash mergeFn ts now repo O acc rel).1.conflicts :=
          syncStep_conflicts_ge hash mergeFn ts now repo O acc rel
      _ ≤ _ := ih _

theorem foldl_const {β γ : Type} (f : β → γ → β) (a : β) (l : List γ)
    (h : ∀ x ∈ l, f a x = a) : l.foldl f a = a := by
  induction l with
  | nil => rfl
  | cons x t ih =>
    rw [List.foldl_cons, h x (List.mem_cons_self x t)]
    exact ih (fun y hy => h y (List.mem_cons_of_mem x hy))

/-- With every entry's source alive, `prune_stale` does nothing. -/
theorem prune_stale_live (name O : String) (st : SyncState) (hlive : SourcesLive st) :
    prune_stale name O st = (0, st) := by
  unfold prune_stale
  apply foldl_const
  intro ke hke
  have hmem : ke ∈ st.manifest.files := List.mem_of_mem_filter hke
  have hex := hlive ke hmem
  simp [pruneStep, hex]

end TallyLemmas

/-! ## The scan on a stable state -/

section StableScan

variable (hash : String → String) (mergeFn : String → String → String → Option String)
variable (ts : String) (now : Nat)

/-- On a stable state the walk fold leaves the state untouched and each
in-scope file tallies AlreadyInSync or Skipped. -/
theorem scan2_fold (repo : RepoConfig) (O : String) (st : SyncState) (l : List String) :
    ∀ r0 : ScanResult,
    (∀ rel ∈ l, should_mirror rel repo.ex repo.inc = true →
      StableFor hash O repo rel st) →
    ∃ A S, l.foldl (syncStep hash mergeFn ts now repo O) (r0, st) =
      (⟨r0.created, r0.already_existed + A, r0.skipped + S, r0.pruned, r0.merged,
        r0.conflicts, r0.errors⟩, st) ∧
      A + S = (l.filter (fun rel => should_mirror rel repo.ex repo.inc)).length := by
  induction l with
  | nil =>
    intro r0 _
    refine ⟨0, 0, ?_, by simp⟩
    cases r0
    simp
  | cons rel t ih =>
    intro r0 hst
    by_cases hsm : should_mirror rel repo.ex repo.inc = true
    · obtain ⟨cs, ms, cm, mm, hs, hm, hdisj⟩ := hst rel (List.mem_cons_self rel t) hsm
      simp only [srcP, mirP, keyP] at hs hm hdisj
      rcases hdisj with ⟨heq, e, hget, hh⟩ | ⟨hne, hget⟩
      · have hsync : sync_file hash mergeFn ts now (repo.path ++ "/" ++ rel)
            (O ++ "/" ++ (repo.name ++ "/" ++ rel)) st (repo.name ++ "/" ++ rel) =
            (.AlreadyInSync, st) :=
          sync_eq_insync_nowrite hash mergeFn ts now _ _ _ st hs hm hget heq hh
        have hstep : syncStep hash mergeFn ts now repo O (r0, st) rel =
            (tally r0 .AlreadyInSync, st) := by
          simp [syncStep, hsm, hsync]
        obtain ⟨A, S, hfold, hsum⟩ := ih (tally r0 .AlreadyInSync)
          (fun rel' h1 h2 => hst rel' (List.mem_cons_of_mem _ h1) h2)
        refine ⟨A + 1, S, ?_, ?_⟩
        · rw [List.foldl_cons, hstep, hfold]
          simp [tally, Prod.mk.injEq, ScanResult.mk.injEq]
          try omega
        · rw [List.filter_cons_of_pos (by simpa using hsm)]
          simp only [List.length_cons]
          omega
      · have hsync : sync_file hash mergeFn ts now (repo.path ++ "/" ++ rel)
            (O ++ "/" ++ (repo.name ++ "/" ++ rel)) st (repo.name ++ "/" ++ rel) =
            (.Skipped, st) :=
          sync_eq_skipped_foreign hash mergeFn ts now _ _ _ st hs hm hget hne
        have hstep : syncStep hash mergeFn ts now repo O (r0, st) rel =
            (tally r0 .Skipped, st) := by
          simp [syncStep, hsm, hsync]
        obtain ⟨A, S, hfold, hsum⟩ := ih (tally r0 .Skipped)
          (fun rel' h1 h2 => hst rel' (List.mem_cons_of_mem _ h1) h2)
        refine ⟨A, S + 1, ?_, ?_⟩
        · rw [List.foldl_cons, hstep, hfold]
          simp [tally, Prod.mk.injEq, ScanResult.mk.injEq]
          try omega
        · rw [List.filter_cons_of_pos (by simpa using hsm)]
          simp only [List.length_cons]
          omega
    · have hstep : syncStep hash mergeFn ts now repo O (r0, st) rel = (r0, st) := by
        simp [syncStep, hsm]
      obtain ⟨A, S, hfold, hsum⟩ := ih r0
        (fun rel' h1 h2 => hst rel' (List.mem_cons_of_mem _ h1) h2)
      refine ⟨A, S, ?_, ?_⟩
      · rw [List.foldl_cons, hstep, hfold]
      · rw [List.filter_cons_of_neg (by simpa using hsm)]
        exact hsum

/-- On a stable state with live sources, `scan_repo` tallies only
AlreadyInSync and Skipped, prunes nothing, and leaves the state
untouched. -/
theorem scan_repo_on_stable (repo : RepoConfig) (O : String) (st : SyncState)
    (hns : noSymP st.fs)
    (hstable : ∀ rel ∈ walkFiles st.fs repo, should_mirror rel repo.ex repo.inc = true →
      StableFor hash O repo rel st)
    (hlive : SourcesLive st) :
    ∃ A S, scan_repo hash mergeFn ts now repo O st = (⟨0, A, S, 0, 0, 0, 0⟩, st) ∧
      A + S = ((walkFiles st.fs repo).filter
        (fun rel => should_mirror rel repo.ex repo.inc)).length := by
  unfold scan_repo
  by_cases hdir : isDir st.fs repo.path = true
  · simp only [hdir, Bool.not_true, Bool.false_eq_true, if_false]
    obtain ⟨A, S, hfold, hsum⟩ := scan2_fold hash mergeFn ts now repo O st
      (walkFiles st.fs repo) ScanResult.zero hstable
    refine ⟨A, S, ?_, hsum⟩
    rw [hfold]
    simp only []
    rw [prune_stale_live repo.name O st hlive]
    simp [ScanResult.zero]
  · have hdir' : isDir st.fs repo.path = false := by
      cases h : isDir st.fs repo.path
      · rfl
      · exact absurd h hdir
    refine ⟨0, 0, ?_, ?_⟩
    · simp [hdir']
      rfl
    · rw [walkFiles_nil_of_not_isDir st.fs repo hdir' hns]
      rfl

end StableScan

/-! ## First-scan step helpers -/

section FirstScanHelpers

theorem pathExists_of_file {fs : FS} {p c : String} {m : Nat}
    (h : fs.lookup p = some (.file c m)) : pathExists fs p = true := by
  simp [pathExists, h]

theorem hasKeyA_of_lookup_some {α : Type} {l : List (String × α)} {k : String} {v : α}
    (h : lookupA l k = some v) : hasKeyA l k = true := by
  simp [hasKeyA, h]

theorem hasKeyA_of_lookup_none {α : Type} {l : List (String × α)} {k : String}
    (h : lookupA l k = none) : hasKeyA l k = false := by
  simp [hasKeyA, h]

theorem keysA_writeFile_some {fs : FS} {p : String} {n : FsNode} (c : String) (now : Nat)
    (h : fs.lookup p = some n) :
    keysA (writeFile fs p c now).files = keysA fs.files := by
  obtain ⟨n', hn'⟩ := writeFile_files_eq fs p c now
  rw [hn', keysA_writeA, hasKeyA_of_lookup_some h]
  simp

theorem keysA_writeFile_none {fs : FS} {p : String} (c : String) (now : Nat)
    (h : fs.lookup p = none) :
    keysA (writeFile fs p c now).files = keysA fs.files ++ [p] := by
  obtain ⟨n', hn'⟩ := writeFile_files_eq fs p c now
  rw [hn', keysA_writeA, hasKeyA_of_lookup_none h]
  simp

theorem lookup_writeFile_ne_none {fs : FS} {q : String} (p c : String) (now : Nat)
    (h : fs.lookup q ≠ none) : (writeFile fs p c now).lookup q ≠ none := by
  rw [FS.lookup_writeFile]
  by_cases hq : q = p
  · simp [hq]
  · rw [if_neg hq]; exact h

theorem sourcesLive_insert (st : SyncState) (fs' : FS) (key src hh : String)
    (bb : List (String × String))
    (hlive : SourcesLive st)
    (hmono : ∀ q, pathExists st.fs q = true → pathExists fs' q = true)
    (hsrc : pathExists fs' src = true) :
    SourcesLive ⟨fs', st.manifest.insertE key ⟨src, hh⟩, bb⟩ := by
  intro kv hkv
  rcases mem_writeA hkv with h | h
  · exact hmono _ (hlive kv h)
  · rw [h]
    exact hsrc

theorem sourcesLive_fs_only (st : SyncState) (fs' : FS) (bb : List (String × String))
    (hlive : SourcesLive st)
    (hmono : ∀ q, pathExists st.fs q = true → pathExists fs' q = true) :
    SourcesLive ⟨fs', st.manifest, bb⟩ :=
  fun kv hkv => hmono _ (hlive kv hkv)

end FirstScanHelpers

/-! ## The first-scan fold -/

section FirstScanFold

variable (hash : String → String) (mergeFn : String → String → String → Option String)
variable (ts : String) (now : Nat)

/-- Assemble the postcondition of the cons case of the first-scan fold
from the step facts of the head file and the induction hypothesis on the
tail. -/
theorem scan1_step_continue (repo : RepoConfig) (O : String)
    (hOP : NotNested O repo.path)
    (rel : String) (t : List String) (st s1 : SyncState) (r0 r' : ScanResult)
    (st' : SyncState) (o : SyncOutcome)
    (hstep : syncStep hash mergeFn ts now repo O (r0, st) rel = (tally r0 o, s1))
    (hno : o ≠ .Conflict)
    (hfold : (rel :: t).foldl (syncStep hash mergeFn ts now repo O) (r0, st) = (r', st'))
    (hpre : ScanFoldPre repo (rel :: t) st)
    (hcf : r'.conflicts = r0.conflicts)
    (IH : ∀ (st2 : SyncState) (r2 r3 : ScanResult) (st3 : SyncState),
      t.foldl (syncStep hash mergeFn ts now repo O) (r2, st2) = (r3, st3) →
      ScanFoldPre repo t st2 → r3.conflicts = r2.conflicts →
      ScanFoldPost hash O repo t st2 st3)
    (hstab : StableFor hash O repo rel s1)
    (hfsf : ∀ q, q ≠ srcP repo rel → q ≠ mirP O repo rel →
      s1.fs.lookup q = st.fs.lookup q)
    (hmf : ∀ k, k ≠ keyP repo rel → s1.manifest.get k = st.manifest.get k)
    (hbf : ∀ k, k ≠ keyP repo rel → lookupA s1.base k = lookupA st.base k)
    (hns1 : noSymP s1.fs) (hknd1 : (keysA s1.fs.files).Nodup)
    (hlive1 : SourcesLive s1) (hdirs1 : s1.fs.dirs = st.fs.dirs)
    (hext1 : ∃ ext1, keysA s1.fs.files = keysA st.fs.files ++ ext1 ∧
      ∀ k ∈ ext1, k = mirP O repo rel)
    (hmono1 : ∀ q, st.fs.lookup q ≠ none → s1.fs.lookup q ≠ none) :
    ScanFoldPost hash O repo (rel :: t) st st' := by
  obtain ⟨hl, hnd, hns, hlive, hknd⟩ := hpre
  have hrelnot : rel ∉ t := (List.nodup_cons.mp hnd).1
  have hndt : t.Nodup := (List.nodup_cons.mp hnd).2
  rw [List.foldl_cons, hstep] at hfold
  have hl' : ∀ rel' ∈ t, ∃ c m, s1.fs.lookup (srcP repo rel') = some (.file c m) := by
    intro rel' hrel'
    obtain ⟨c, m, hc⟩ := hl rel' (List.mem_cons_of_mem _ hrel')
    have hne1 : srcP repo rel' ≠ srcP repo rel := by
      intro hcon
      exact hrelnot ((srcP_inj repo hcon) ▸ hrel')
    have hne2 : srcP repo rel' ≠ mirP O repo rel :=
      (mirP_ne_srcP O repo repo hOP rel rel').symm
    exact ⟨c, m, by rw [hfsf _ hne1 hne2]; exact hc⟩
  have hcf' : r'.conflicts = (tally r0 o).conflicts := by
    rw [hcf, tally_conflicts_of_ne r0 o hno]
  have post := IH s1 (tally r0 o) r' st' hfold ⟨hl', hndt, hns1, hlive1, hknd1⟩ hcf'
  obtain ⟨pStab, pNs, pKnd, pLive, pDirs, ⟨extT, hextT, hextTmem⟩, pFsf, pMf, pBf,
    pMono⟩ := post
  refine ⟨?_, pNs, pKnd, pLive, ?_, ?_, ?_, ?_, ?_, ?_⟩
  · intro rel' hrel' hsm'
    rcases List.mem_cons.mp hrel' with hhead | htail
    · subst hhead
      obtain ⟨cs1, ms1, cm1, mm1, h1, h2, hd⟩ := hstab
      have hq1 : ∀ rel2 ∈ t, srcP repo rel' ≠ srcP repo rel2 ∧
          srcP repo rel' ≠ mirP O repo rel2 := by
        intro rel2 hrel2
        refine ⟨?_, (mirP_ne_srcP O repo repo hOP rel2 rel').symm⟩
        intro hcon
        exact hrelnot ((srcP_inj repo hcon).symm ▸ hrel2)
      have hq2 : ∀ rel2 ∈ t, mirP O repo rel' ≠ srcP repo rel2 ∧
          mirP O repo rel' ≠ mirP O repo rel2 := by
        intro rel2 hrel2
        refine ⟨mirP_ne_srcP O repo repo hOP rel' rel2, ?_⟩
        intro hcon
        exact hrelnot ((mirP_inj O repo hcon).symm ▸ hrel2)
      have hq3 : ∀ rel2 ∈ t, keyP repo rel' ≠ keyP repo rel2 := by
        intro rel2 hrel2 hcon
        exact hrelnot ((keyP_inj repo hcon).symm ▸ hrel2)
      exact ⟨cs1, ms1, cm1, mm1, by rw [pFsf _ hq1]; exact h1,
        by rw [pFsf _ hq2]; exact h2, by rw [pMf _ hq3]; exact hd⟩
    · exact pStab rel' htail hsm'
  · rw [pDirs, hdirs1]
  · obtain ⟨ext1, hext1eq, hext1mem⟩ := hext1
    refine ⟨ext1 ++ extT, ?_, ?_⟩
    · rw [hextT, hext1eq, List.append_assoc]
    · intro k hk
      rcases List.mem_append.mp hk with h | h
      · exact ⟨rel, List.mem_cons_self rel t, hext1mem k h⟩
      · obtain ⟨rel2, hrel2, hkeq⟩ := hextTmem k h
        exact ⟨rel2, List.mem_cons_of_mem _ hrel2, hkeq⟩
  · intro q hq
    rw [pFsf q (fun rel2 hrel2 => hq rel2 (List.mem_cons_of_mem _ hrel2))]
    exact hfsf q (hq rel (List.mem_cons_self rel t)).1 (hq rel (List.mem_cons_self rel t)).2
  · intro k hk
    rw [pMf k (fun rel2 hrel2 => hk rel2 (List.mem_cons_of_mem _ hrel2))]
    exact hmf k (hk rel (List.mem_cons_self rel t))
  · intro k hk
    rw [pBf k (fun rel2 hrel2 => hk rel2 (List.mem_cons_of_mem _ hrel2))]
    exact hbf k (hk rel (List.mem_cons_self rel t))
  · intro q hq
    exact pMono q (hmono1 q hq)

/-- The tail of a postcondition also serves the cons when the head file is
out of scope and the step left the state unchanged. -/
theorem scanFoldPost_cons_of_skip (repo : RepoConfig) (O : String)
    (rel : String) (t : List String) (st st' : SyncState)
    (h : ScanFoldPost hash O repo t st st')
    (hsm : ¬ should_mirror rel repo.ex repo.inc = true) :
    ScanFoldPost hash O repo (rel :: t) st st' := by
  obtain ⟨pStab, pNs, pKnd, pLive, pDirs, ⟨extT, hextT, hextTmem⟩, pFsf, pMf, pBf,
    pMono⟩ := h
  refine ⟨?_, pNs, pKnd, pLive, pDirs, ⟨extT, hextT, ?_⟩, ?_, ?_, ?_, pMono⟩
  · intro rel' hrel' hsm'
    rcases List.mem_cons.mp hrel' with hhead | htail
    · subst hhead
      exact absurd hsm' hsm
    · exact pStab rel' htail hsm'
  · intro k hk
    obtain ⟨rel2, hrel2, hkeq⟩ := hextTmem k hk
    exact ⟨rel2, List.mem_cons_of_mem _ hrel2, hkeq⟩
  · intro q hq
    exact pFsf q (fun rel2 hrel2 => hq rel2 (List.mem_cons_of_mem _ hrel2))
  · intro k hk
    exact pMf k (fun rel2 hrel2 => hk rel2 (List.mem_cons_of_mem _ hrel2))
  · intro k hk
    exact pBf k (fun rel2 hrel2 => hk rel2 (List.mem_cons_of_mem _ hrel2))

/-- The walk fold of a first scan that reports no conflict stabilizes
every in-scope walked file and touches nothing else. -/
theorem scan1_fold (repo : RepoConfig) (O : String) (hOP : NotNested O repo.path)
    (l : List String) :
    ∀ (st : SyncState) (r0 r' : ScanResult) (st' : SyncState),
    l.foldl (syncStep hash mergeFn ts now repo O) (r0, st) = (r', st') →
    ScanFoldPre repo l st →
    r'.conflicts = r0.conflicts →
    ScanFoldPost hash O repo l st st' := by
  induction l with
  | nil =>
    intro st r0 r' st' hfold hpre hcf
    cases hfold
    obtain ⟨hl, hnd, hns, hlive, hknd⟩ := hpre
    exact ⟨by simp, hns, hknd, hlive, rfl, ⟨[], by simp, by simp⟩,
      fun q _ => rfl, fun k _ => rfl, fun k _ => rfl, fun q hq => hq⟩
  | cons rel t ih =>
    intro st r0 r' st' hfold hpre hcf
    obtain ⟨hl, hnd, hns, hlive, hknd⟩ := hpre
    have hndt : t.Nodup := (List.nodup_cons.mp hnd).2
    obtain ⟨cs, ms, hs0⟩ := hl rel (List.mem_cons_self rel t)
    by_cases hsm : should_mirror rel repo.ex repo.inc = true
    · have hsrcne : srcP repo rel ≠ mirP O repo rel :=
        (mirP_ne_srcP O repo repo hOP rel rel).symm
      have hsrcex : pathExists st.fs (srcP repo rel) = true := pathExists_of_file hs0
      cases hm0 : st.fs.lookup (mirP O repo rel) with
      | none =>
        -- new file: copy source to mirror
        have hsync0 := sync_eq_copied_new hash mergeFn ts now (srcP repo rel)
          (mirP O repo rel) (keyP repo rel) st hs0 hm0
        have hstep : syncStep hash mergeFn ts now repo O (r0, st) rel =
            (tally r0 .Copied, ⟨writeFile st.fs (mirP O repo rel) cs now,
              st.manifest.insertE (keyP repo rel) ⟨srcP repo rel, hash cs⟩,
              writeA st.base (keyP repo rel) cs⟩) := by
          have hsync := hsync0
          simp only [srcP, mirP, keyP] at hsync
          simp [syncStep, hsm, hsync, srcP, mirP, keyP]
        refine scan1_step_continue hash mergeFn ts now repo O hOP rel t st _ r0 r' st'
          .Copied hstep (by simp) hfold ⟨hl, hnd, hns, hlive, hknd⟩ hcf ih
          ?_ ?_ ?_ ?_ ?_ ?_ ?_ ?_ ?_ ?_
        · refine ⟨cs, ms, cs, now, ?_, ?_,
            Or.inl ⟨rfl, ⟨srcP repo rel, hash cs⟩, ?_, rfl⟩⟩
          · show (writeFile st.fs (mirP O repo rel) cs now).lookup (srcP repo rel) = _
            rw [FS.lookup_writeFile_ne _ _ _ hsrcne]
            exact hs0
          · show (writeFile st.fs (mirP O repo rel) cs now).lookup (mirP O repo rel) = _
            rw [FS.lookup_writeFile]
            simp [hm0]
          · exact lookupA_writeA_self _ _ _
        · intro q hq1 hq2
          show (writeFile st.fs (mirP O repo rel) cs now).lookup q = _
          rw [FS.lookup_writeFile_ne _ _ _ hq2]
        · intro k hk
          exact lookupA_writeA_ne _ _ hk
        · intro k hk
          exact lookupA_writeA_ne _ _ hk
        · exact noSym_writeFile hns _ _ _
        · exact nodup_writeFile hknd _ _ _
        · exact sourcesLive_insert st _ _ _ _ _ hlive
            (fun q hq => pathExists_writeFile_mono _ _ _ hq)
            (pathExists_writeFile_mono _ _ _ hsrcex)
        · exact FS.dirs_writeFile st.fs _ _ _
        · exact ⟨[mirP O repo rel], keysA_writeFile_none _ _ hm0, by simp⟩
        · intro q hq
          exact lookup_writeFile_ne_none _ _ _ hq
      | some nmir =>
        have hfile := noSym_lookup hns hm0
        cases nmir with
        | symlink tp tc tm => simp [isFileNode] at hfile
        | file cm mm =>
          cases hget : st.manifest.get (keyP repo rel) with
          | none =>
            by_cases heq : hash cs = hash cm
            · -- claim ownership
              have hsync0 := sync_eq_claimed hash mergeFn ts now (srcP repo rel)
                (mirP O repo rel) (keyP repo rel) st hs0 hm0 hget heq
              have hstep : syncStep hash mergeFn ts now repo O (r0, st) rel =
                  (tally r0 .Claimed, ⟨st.fs,
                    st.manifest.insertE (keyP repo rel) ⟨srcP repo rel, hash cs⟩,
                    writeA st.base (keyP repo rel) cs⟩) := by
                have hsync := hsync0
                simp only [srcP, mirP, keyP] at hsync
                simp [syncStep, hsm, hsync, srcP, mirP, keyP]
              refine scan1_step_continue hash mergeFn ts now repo O hOP rel t st _ r0 r'
                st' .Claimed hstep (by simp) hfold ⟨hl, hnd, hns, hlive, hknd⟩ hcf ih
                ?_ ?_ ?_ ?_ ?_ ?_ ?_ ?_ ?_ ?_
              · exact ⟨cs, ms, cm, mm, hs0, hm0,
                  Or.inl ⟨heq, ⟨srcP repo rel, hash cs⟩, lookupA_writeA_self _ _ _, rfl⟩⟩
              · intro q _ _
                rfl
              · intro k hk
                exact lookupA_writeA_ne _ _ hk
              · intro k hk
                exact lookupA_writeA_ne _ _ hk
              · exact hns
              · exact hknd
              · exact sourcesLive_insert st _ _ _ _ _ hlive (fun q hq => hq) hsrcex
              · rfl
              · exact ⟨[], by simp, by simp⟩
              · intro q hq
                exact hq
            · -- foreign mirror: skip
              have hsync0 := sync_eq_skipped_foreign hash mergeFn ts now (srcP repo rel)
                (mirP O repo rel) (keyP repo rel) st hs0 hm0 hget heq
              have hstep : syncStep hash mergeFn ts now repo O (r0, st) rel =
                  (tally r0 .Skipped, st) := by
                have hsync := hsync0
                simp only [srcP, mirP, keyP] at hsync
                simp [syncStep, hsm, hsync, srcP, mirP, keyP]
              refine scan1_step_continue hash mergeFn ts now repo O hOP rel t st st r0 r'
                st' .Skipped hstep (by simp) hfold ⟨hl, hnd, hns, hlive, hknd⟩ hcf ih
                ⟨cs, ms, cm, mm, hs0, hm0, Or.inr ⟨heq, hget⟩⟩
                (fun q _ _ => rfl) (fun k _ => rfl) (fun k _ => rfl) hns hknd hlive rfl
                ⟨[], by simp, by simp⟩ (fun q hq => hq)
          | some e =>
            by_cases heq : hash cs = hash cm
            · by_cases hh : e.hash = hash cs
              · -- already in sync, no write
                have hsync0 := sync_eq_insync_nowrite hash mergeFn ts now (srcP repo rel)
                  (mirP O repo rel) (keyP repo rel) st hs0 hm0 hget heq hh
                have hstep : syncStep hash mergeFn ts now repo O (r0, st) rel =
                    (tally r0 .AlreadyInSync, st) := by
                  have hsync := hsync0
                  simp only [srcP, mirP, keyP] at hsync
                  simp [syncStep, hsm, hsync, srcP, mirP, keyP]
                refine scan1_step_continue hash mergeFn ts now repo O hOP rel t st st r0
                  r' st' .AlreadyInSync hstep (by simp) hfold ⟨hl, hnd, hns, hlive, hknd⟩ hcf ih
                  ⟨cs, ms, cm, mm, hs0, hm0, Or.inl ⟨heq, e, hget, hh⟩⟩
                  (fun q _ _ => rfl) (fun k _ => rfl) (fun k _ => rfl) hns hknd hlive rfl
                  ⟨[], by simp, by simp⟩ (fun q hq => hq)
              · -- already in sync, refresh entry and base
                have hsync0 := sync_eq_insync_refresh hash mergeFn ts now (srcP repo rel)
                  (mirP O repo rel) (keyP repo rel) st hs0 hm0 hget heq hh
                have hstep : syncStep hash mergeFn ts now repo O (r0, st) rel =
                    (tally r0 .AlreadyInSync, ⟨st.fs,
                      st.manifest.insertE (keyP repo rel) ⟨srcP repo rel, hash cs⟩,
                      writeA st.base (keyP repo rel) cs⟩) := by
                  have hsync := hsync0
                  simp only [srcP, mirP, keyP] at hsync
                  simp [syncStep, hsm, hsync, srcP, mirP, keyP]
                refine scan1_step_continue hash mergeFn ts now repo O hOP rel t st _ r0 r'
                  st' .AlreadyInSync hstep (by simp) hfold ⟨hl, hnd, hns, hlive, hknd⟩ hcf ih
                  ?_ ?_ ?_ ?_ ?_ ?_ ?_ ?_ ?_ ?_
                · exact ⟨cs, ms, cm, mm, hs0, hm0,
                    Or.inl ⟨heq, ⟨srcP repo rel, hash cs⟩, lookupA_writeA_self _ _ _, rfl⟩⟩
                · intro q _ _
                  rfl
                · intro k hk
                  exact lookupA_writeA_ne _ _ hk
                · intro k hk
                  exact lookupA_writeA_ne _ _ hk
                · exact hns
                · exact hknd
                · exact sourcesLive_insert st _ _ _ _ _ hlive (fun q hq => hq) hsrcex
                · rfl
                · exact ⟨[], by simp, by simp⟩
                · intro q hq
                  exact hq
            · by_cases h1 : hash cs = e.hash
              · -- mirror changed: copy mirror back to source
                have hsync0 := sync_eq_copy_back hash mergeFn ts now (srcP repo rel)
                  (mirP O repo rel) (keyP repo rel) st hs0 hm0 hget heq h1
                have hstep : syncStep hash mergeFn ts now repo O (r0, st) rel =
                    (tally r0 .Copied, ⟨writeFile st.fs (srcP repo rel) cm now,
                      st.manifest.insertE (keyP repo rel) ⟨srcP repo rel, hash cm⟩,
                      writeA st.base (keyP repo rel) cm⟩) := by
                  have hsync := hsync0
                  simp only [srcP, mirP, keyP] at hsync
                  simp [syncStep, hsm, hsync, srcP, mirP, keyP]
                refine scan1_step_continue hash mergeFn ts now repo O hOP rel t st _ r0 r'
                  st' .Copied hstep (by simp) hfold ⟨hl, hnd, hns, hlive, hknd⟩ hcf ih
                  ?_ ?_ ?_ ?_ ?_ ?_ ?_ ?_ ?_ ?_
                · refine ⟨cm, now, cm, mm, ?_, ?_,
                    Or.inl ⟨rfl, ⟨srcP repo rel, hash cm⟩, ?_, rfl⟩⟩
                  · show (writeFile st.fs (srcP repo rel) cm now).lookup (srcP repo rel) = _
                    rw [FS.lookup_writeFile]
                    simp [hs0]
                  · show (writeFile st.fs (srcP repo rel) cm now).lookup (mirP O repo rel) = _
                    rw [FS.lookup_writeFile_ne _ _ _ hsrcne.symm]
                    exact hm0
                  · exact lookupA_writeA_self _ _ _
                · intro q hq1 hq2
                  show (writeFile st.fs (srcP repo rel) cm now).lookup q = _
                  rw [FS.lookup_writeFile_ne _ _ _ hq1]
                · intro k hk
                  exact lookupA_writeA_ne _ _ hk
                · intro k hk
                  exact lookupA_writeA_ne _ _ hk
                · exact noSym_writeFile hns _ _ _
                · exact nodup_writeFile hknd _ _ _
                · exact sourcesLive_insert st _ _ _ _ _ hlive
                    (fun q hq => pathExists_writeFile_mono _ _ _ hq)
                    (pathExists_writeFile_mono _ _ _ hsrcex)
                · exact FS.dirs_writeFile st.fs _ _ _
                · exact ⟨[], by rw [keysA_writeFile_some _ _ hs0, List.append_nil], by simp⟩
                · intro q hq
                  exact lookup_writeFile_ne_none _ _ _ hq
              · by_cases h2 : hash cm = e.hash
                · -- source changed: copy source to mirror
                  have hsync0 := sync_eq_copy_forward hash mergeFn ts now (srcP repo rel)
                    (mirP O repo rel) (keyP repo rel) st hs0 hm0 hget heq h1 h2
                  have hstep : syncStep hash mergeFn ts now repo O (r0, st) rel =
                      (tally r0 .Copied, ⟨writeFile st.fs (mirP O repo rel) cs now,
                        st.manifest.insertE (keyP repo rel) ⟨srcP repo rel, hash cs⟩,
                        writeA st.base (keyP repo rel) cs⟩) := by
                    have hsync := hsync0
                    simp only [srcP, mirP, keyP] at hsync
                    simp [syncStep, hsm, hsync, srcP, mirP, keyP]
                  refine scan1_step_continue hash mergeFn ts now repo O hOP rel t st _ r0
                    r' st' .Copied hstep (by simp) hfold ⟨hl, hnd, hns, hlive, hknd⟩ hcf ih
                    ?_ ?_ ?_ ?_ ?_ ?_ ?_ ?_ ?_ ?_
                  · refine ⟨cs, ms, cs, now, ?_, ?_,
                      Or.inl ⟨rfl, ⟨srcP repo rel, hash cs⟩, ?_, rfl⟩⟩
                    · show (writeFile st.fs (mirP O repo rel) cs now).lookup
                        (srcP repo rel) = _
                      rw [FS.lookup_writeFile_ne _ _ _ hsrcne]
                      exact hs0
                    · show (writeFile st.fs (mirP O repo rel) cs now).lookup
                        (mirP O repo rel) = _
                      rw [FS.lookup_writeFile]
                      simp [hm0]
                    · exact lookupA_writeA_self _ _ _
                  · intro q hq1 hq2
                    show (writeFile st.fs (mirP O repo rel) cs now).lookup q = _
                    rw [FS.lookup_writeFile_ne _ _ _ hq2]
                  · intro k hk
                    exact lookupA_writeA_ne _ _ hk
                  · intro k hk
                    exact lookupA_writeA_ne _ _ hk
                  · exact noSym_writeFile hns _ _ _
                  · exact nodup_writeFile hknd _ _ _
                  · exact sourcesLive_insert st _ _ _ _ _ hlive
                      (fun q hq => pathExists_writeFile_mono _ _ _ hq)
                      (pathExists_writeFile_mono _ _ _ hsrcex)
                  · exact FS.dirs_writeFile st.fs _ _ _
                  · exact ⟨[], by rw [keysA_writeFile_some _ _ hm0, List.append_nil],
                      by simp⟩
                  · intro q hq
                    exact lookup_writeFile_ne_none _ _ _ hq
                · cases hb : lookupA st.base (keyP repo rel) with
                  | some b =>
                    cases hmg : mergeFn b cs cm with
                    | some merged =>
                      -- clean three-way merge applied to both sides
                      have hsync0 := sync_eq_merged hash mergeFn ts now (srcP repo rel)
                        (mirP O repo rel) (keyP repo rel) st hs0 hm0 hget heq h1 h2 hb hmg
                      have hstep : syncStep hash mergeFn ts now repo O (r0, st) rel =
                          (tally r0 .Merged,
                            ⟨writeFile (writeFile st.fs (srcP repo rel) merged now)
                              (mirP O repo rel) merged now,
                            st.manifest.insertE (keyP repo rel)
                              ⟨srcP repo rel, hash merged⟩,
                            writeA st.base (keyP repo rel) merged⟩) := by
                        have hsync := hsync0
                        simp only [srcP, mirP, keyP] at hsync
                        simp [syncStep, hsm, hsync, srcP, mirP, keyP]
                      have hsrc1 : (writeFile st.fs (srcP repo rel) merged now).lookup
                          (srcP repo rel) = some (.file merged now) := by
                        rw [FS.lookup_writeFile]
                        simp [hs0]
                      have hmir1 : (writeFile st.fs (srcP repo rel) merged now).lookup
                          (mirP O repo rel) = some (.file cm mm) := by
                        rw [FS.lookup_writeFile_ne _ _ _ hsrcne.symm]
                        exact hm0
                      refine scan1_step_continue hash mergeFn ts now repo O hOP rel t st _
                        r0 r' st' .Merged hstep (by simp) hfold ⟨hl, hnd, hns, hlive, hknd⟩ hcf
                        ih ?_ ?_ ?_ ?_ ?_ ?_ ?_ ?_ ?_ ?_
                      · refine ⟨merged, now, merged, now, ?_, ?_,
                          Or.inl ⟨rfl, ⟨srcP repo rel, hash merged⟩, ?_, rfl⟩⟩
                        · show (writeFile (writeFile st.fs (srcP repo rel) merged now)
                            (mirP O repo rel) merged now).lookup (srcP repo rel) = _
                          rw [FS.lookup_writeFile_ne _ _ _ hsrcne]
                          exact hsrc1
                        · show (writeFile (writeFile st.fs (srcP repo rel) merged now)
                            (mirP O repo rel) merged now).lookup (mirP O repo rel) = _
                          rw [FS.lookup_writeFile]
                          simp [hmir1]
                        · exact lookupA_writeA_self _ _ _
                      · intro q hq1 hq2
                        show (writeFile (writeFile st.fs (srcP repo rel) merged now)
                          (mirP O repo rel) merged now).lookup q = _
                        rw [FS.lookup_writeFile_ne _ _ _ hq2,
                          FS.lookup_writeFile_ne _ _ _ hq1]
                      · intro k hk
                        exact lookupA_writeA_ne _ _ hk
                      · intro k hk
                        exact lookupA_writeA_ne _ _ hk
                      · exact noSym_writeFile (noSym_writeFile hns _ _ _) _ _ _
                      · exact nodup_writeFile (nodup_writeFile hknd _ _ _) _ _ _
                      · exact sourcesLive_insert st _ _ _ _ _ hlive
                          (fun q hq => pathExists_writeFile_mono _ _ _
                            (pathExists_writeFile_mono _ _ _ hq))
                          (pathExists_writeFile_mono _ _ _
                            (pathExists_writeFile_mono _ _ _ hsrcex))
                      · rw [FS.dirs_writeFile, FS.dirs_writeFile]
                      · refine ⟨[], ?_, by simp⟩
                        rw [keysA_writeFile_some _ _ hmir1, keysA_writeFile_some _ _ hs0,
                          List.append_nil]
                      · intro q hq
                        exact lookup_writeFile_ne_none _ _ _
                          (lookup_writeFile_ne_none _ _ _ hq)
                    | none =>
                      -- overlapping merge: the scan would report a conflict
                      exfalso
                      have hdisp := sync_file_conflict_dispatch hash mergeFn ts now
                        (srcP repo rel) (mirP O repo rel) (keyP repo rel) st cs cm ms mm e
                        hs0 hm0 hget heq h1 h2 (Or.inr ⟨b, hb, hmg⟩)
                      have hfst := resolve_conflict_fst hash ts now (srcP repo rel)
                        (mirP O repo rel) (keyP repo rel) st
                      have hsc : (syncStep hash mergeFn ts now repo O (r0, st)
                          rel).1.conflicts = r0.conflicts + 1 := by
                        simp only [srcP, mirP, keyP] at hdisp hfst
                        simp [syncStep, hsm, hdisp, hfst, tally, srcP, mirP, keyP]
                      rw [List.foldl_cons] at hfold
                      have hge := syncStep_foldl_conflicts_ge hash mergeFn ts now repo O t
                        (syncStep hash mergeFn ts now repo O (r0, st) rel)
                      rw [hfold] at hge
                      have hge2 : (syncStep hash mergeFn ts now repo O (r0, st)
                          rel).1.conflicts ≤ r'.conflicts := hge
                      rw [hsc] at hge2
                      omega
                  | none =>
                    -- missing base: the scan would report a conflict
                    exfalso
                    have hdisp := sync_file_conflict_dispatch hash mergeFn ts now
                      (srcP repo rel) (mirP O repo rel) (keyP repo rel) st cs cm ms mm e
                      hs0 hm0 hget heq h1 h2 (Or.inl hb)
                    have hfst := resolve_conflict_fst hash ts now (srcP repo rel)
                      (mirP O repo rel) (keyP repo rel) st
                    have hsc : (syncStep hash mergeFn ts now repo O (r0, st)
                        rel).1.conflicts = r0.conflicts + 1 := by
                      simp only [srcP, mirP, keyP] at hdisp hfst
                      simp [syncStep, hsm, hdisp, hfst, tally, srcP, mirP, keyP]
                    rw [List.foldl_cons] at hfold
                    have hge := syncStep_foldl_conflicts_ge hash mergeFn ts now repo O t
                      (syncStep hash mergeFn ts now repo O (r0, st) rel)
                    rw [hfold] at hge
                    have hge2 : (syncStep hash mergeFn ts now repo O (r0, st)
                        rel).1.conflicts ≤ r'.conflicts := hge
                    rw [hsc] at hge2
                    omega
    · have hstep : syncStep hash mergeFn ts now repo O (r0, st) rel = (r0, st) := by
        simp [syncStep, hsm]
      rw [List.foldl_cons, hstep] at hfold
      have post := ih st r0 r' st' hfold
        ⟨fun rel' hrel' => hl rel' (List.mem_cons_of_mem _ hrel'), hndt, hns, hlive,
          hknd⟩ hcf
      exact scanFoldPost_cons_of_skip hash repo O rel t st st' post hsm

end FirstScanFold

/-! ## From the walk fold to a whole `scan_repo` -/

section ScanRepoLemmas

variable (hash : String → String) (mergeFn : String → String → String → Option String)
variable (ts : String) (now : Nat)

theorem lookupA_of_mem_nodup {α : Type} {l : List (String × α)}
    (hnd : (keysA l).Nodup) {k : String} {v : α} (h : (k, v) ∈ l) :
    lookupA l k = some v := by
  induction l with
  | nil => cases h
  | cons qw t ih =>
    obtain ⟨q, w⟩ := qw
    simp only [keysA, List.map_cons] at hnd
    rcases List.mem_cons.mp h with h1 | h1
    · injection h1 with hk hv
      subst hk; subst hv
      rw [lookupA_cons, if_pos rfl]
    · have hq : q ≠ k := by
        intro he; subst he
        exact (List.nodup_cons.mp hnd).1 (List.mem_map_of_mem Prod.fst h1)
      rw [lookupA_cons, if_neg hq]
      exact ih (List.nodup_cons.mp hnd).2 h1

/-- With duplicate-free file keys, every walked relative path names a
regular source file. -/
theorem walkFiles_mem_src {fs : FS} {repo : RepoConfig} {rel : String}
    (hknd : (keysA fs.files).Nodup) (h : rel ∈ walkFiles fs repo) :
    ∃ c m, fs.lookup (srcP repo rel) = some (.file c m) := by
  unfold walkFiles at h
  rw [List.mem_filterMap] at h
  obtain ⟨kv, hmem, hf⟩ := h
  cases hur : underRoot repo.path kv.1 with
  | none =>
    rw [hur] at hf
    exact Option.noConfusion hf
  | some r =>
    rw [hur] at hf
    cases hn : kv.2 with
    | symlink a b c =>
      rw [hn] at hf
      exact Option.noConfusion hf
    | file c m =>
      rw [hn] at hf
      have hf2 : (if ((ancestorDirs r).all fun d => should_descend d repo.ex) = true
          then some r else none) = some rel := hf
      by_cases hc : ((ancestorDirs r).all fun d => should_descend d repo.ex) = true
      · rw [if_pos hc] at hf2
        injection hf2 with hre
        subst hre
        refine ⟨c, m, ?_⟩
        unfold srcP
        rw [← underRoot_some hur]
        have hlk : lookupA fs.files kv.1 = some kv.2 :=
          lookupA_of_mem_nodup hknd (by rw [Prod.mk.eta]; exact hmem)
        rw [hn] at hlk
        exact hlk
      · rw [if_neg hc] at hf2
        exact Option.noConfusion hf2

/-- Reassociated shape of a mirror path. -/
theorem mirP_eq (O : String) (repo : RepoConfig) (rel : String) :
    mirP O repo rel = (O ++ "/" ++ repo.name) ++ "/" ++ rel := by
  apply String.ext
  simp [mirP, keyP, String.data_append, List.append_assoc]

/-- A conflict-free first `scan_repo` (no symlinks, duplicate-free keys,
live sources) establishes stability of every walked in-scope file and
perturbs nothing outside the repo root and its mirror subtree. -/
theorem scan1_scan_repo (repo : RepoConfig) (O : String) (hOP : NotNested O repo.path)
    (st : SyncState) (hns : noSymP st.fs) (hknd : (keysA st.fs.files).Nodup)
    (hlive : SourcesLive st)
    (hcf : (scan_repo hash mergeFn ts now repo O st).1.conflicts = 0) :
    ScanRepoPost hash O repo st (scan_repo hash mergeFn ts now repo O st).2 := by
  by_cases hdir : isDir st.fs repo.path = true
  · rcases hfd : (walkFiles st.fs repo).foldl (syncStep hash mergeFn ts now repo O)
      (ScanResult.zero, st) with ⟨r1, st1⟩
    have hval : scan_repo hash mergeFn ts now repo O st =
        ({ r1 with pruned := (prune_stale repo.name O st1).1 },
          (prune_stale repo.name O st1).2) := by
      unfold scan_repo
      simp only [hdir, Bool.not_true, Bool.false_eq_true, if_false]
      rw [hfd]
    have hcf1 : r1.conflicts = 0 := by
      rw [hval] at hcf
      exact hcf
    have post : ScanFoldPost hash O repo (walkFiles st.fs repo) st st1 := by
      apply scan1_fold hash mergeFn ts now repo O hOP (walkFiles st.fs repo) st
        ScanResult.zero r1 st1 hfd
      · refine ⟨fun rel h => walkFiles_mem_src hknd h, ?_, hns, hlive, hknd⟩
        rw [walkFiles_eq_keysWalk st.fs repo hns]
        exact keysWalk_nodup repo hknd
      · exact hcf1
    obtain ⟨pStab, pNs, pKnd, pLive, pDirs, ⟨ext, hext, hextmem⟩, pFsf, pMf, pBf,
      pMono⟩ := post
    have hpr : prune_stale repo.name O st1 = (0, st1) :=
      prune_stale_live repo.name O st1 pLive
    have hst2 : (scan_repo hash mergeFn ts now repo O st).2 = st1 := by
      rw [hval, hpr]
    rw [hst2]
    refine ⟨pStab, pNs, pKnd, pLive, pDirs, ⟨ext, hext, ?_⟩, ?_, ?_, ?_, pMono⟩
    · intro k hk
      obtain ⟨rel, _, rfl⟩ := hextmem k hk
      exact sepPre_append O (keyP repo rel)
    · intro q h1 h2
      apply pFsf q
      intro rel hrel
      constructor
      · intro he; subst he
        exact h1 (sepPre_append repo.path rel)
      · intro he; subst he
        apply h2
        rw [mirP_eq]
        exact sepPre_append (O ++ "/" ++ repo.name) rel
    · intro k hk
      apply pMf k
      intro rel hrel he
      subst he
      exact hk (sepPre_append repo.name rel)
    · intro k hk
      apply pBf k
      intro rel hrel he
      subst he
      exact hk (sepPre_append repo.name rel)
  · have hdir' : isDir st.fs repo.path = false := by
      cases h : isDir st.fs repo.path
      · rfl
      · exact absurd h hdir
    have hval : scan_repo hash mergeFn ts now repo O st = (ScanResult.zero, st) := by
      unfold scan_repo
      simp [hdir']
    rw [hval]
    refine ⟨?_, hns, hknd, hlive, rfl, ⟨[], by simp, by simp⟩, fun q _ _ => rfl,
      fun k _ => rfl, fun k _ => rfl, fun q hq => hq⟩
    rw [walkFiles_nil_of_not_isDir st.fs repo hdir' hns]
    simp

end ScanRepoLemmas

/-! ## Cross-repo composition of the first scan -/

section CrossRepo

variable (hash : String → String) (mergeFn : String → String → String → Option String)
variable (ts : String) (now : Nat)

theorem full_scan_eq_fold (config : Config) (st : SyncState) :
    full_scan hash mergeFn ts now config st =
      config.repos.foldl (fullStep hash mergeFn ts now config.output_dir)
        (ScanResult.zero, st) := by
  rfl

theorem fullStep_conflicts_ge (O : String) (acc : ScanResult × SyncState)
    (repo : RepoConfig) :
    acc.1.conflicts ≤ (fullStep hash mergeFn ts now O acc repo).1.conflicts := by
  unfold fullStep
  rcases hsc : scan_repo hash mergeFn ts now repo O acc.2 with ⟨r, st'⟩
  exact Nat.le_add_right _ _

theorem fullFold_conflicts_ge (O : String) (repos : List RepoConfig) :
    ∀ acc : ScanResult × SyncState,
      acc.1.conflicts ≤
        (repos.foldl (fullStep hash mergeFn ts now O) acc).1.conflicts := by
  induction repos with
  | nil => intro acc; exact le_rfl
  | cons B rest ih =>
    intro acc
    calc acc.1.conflicts
        ≤ (fullStep hash mergeFn ts now O acc B).1.conflicts :=
          fullStep_conflicts_ge hash mergeFn ts now O acc B
      _ ≤ _ := ih _

theorem out_pre_mirRoot (O n : String) :
    (O ++ "/").data <+: ((O ++ "/" ++ n) ++ "/").data := by
  have h1 : (O ++ "/").data <+: (O ++ "/" ++ n).data := sepPre_append O n
  have h2 : (O ++ "/" ++ n).data <+: ((O ++ "/" ++ n) ++ "/").data := by
    rw [String.data_append]
    exact List.prefix_append _ _
  exact h1.trans h2

theorem not_under_of_under_other {a b : String} (h : NotNested a b) {k : List Char}
    (hk : (a ++ "/").data <+: k) : ¬ (b ++ "/").data <+: k := by
  intro hc
  rcases List.prefix_or_prefix_of_prefix hk hc with hp | hp
  · exact h.1 hp
  · exact h.2 hp

/-- Growing the file list only by keys under the output root leaves the
walk of a repo not nested with the output root unchanged. -/
theorem walk_preserved (O : String) (A : RepoConfig) (hOA : NotNested O A.path)
    {s s' : SyncState} (hns : noSymP s.fs) (hns' : noSymP s'.fs)
    {ext : List String} (hext : keysA s'.fs.files = keysA s.fs.files ++ ext)
    (hextm : ∀ k ∈ ext, (O ++ "/").data <+: k.data) :
    walkFiles s'.fs A = walkFiles s.fs A := by
  rw [walkFiles_eq_keysWalk s'.fs A hns', walkFiles_eq_keysWalk s.fs A hns, hext,
    keysWalk_append,
    keysWalk_nil_of_not_under (fun k hk => not_under_of_under_other hOA (hextm k hk)),
    List.append_nil]

/-- Scanning one repo preserves the stability of any file of a repo whose
root and name are not nested with the scanned repo's. -/
theorem stableFor_preserved (O : String) (A B : RepoConfig)
    (hPP : NotNested A.path B.path) (hNN : NotNested A.name B.name)
    (hOA : NotNested O A.path) (hOB : NotNested O B.path)
    {s s' : SyncState} (post : ScanRepoPost hash O B s s')
    (rel : String) (h : StableFor hash O A rel s) : StableFor hash O A rel s' := by
  obtain ⟨cs, ms, cm, mm, hs, hm, hd⟩ := h
  obtain ⟨-, -, -, -, -, -, pFsf, pMf, -, -⟩ := post
  have hsrc : s'.fs.lookup (srcP A rel) = s.fs.lookup (srcP A rel) := by
    apply pFsf
    · exact not_under_of_notNested (notNested_symm hPP) rel
    · intro hc
      exact not_under_of_notNested hOA rel ((out_pre_mirRoot O B.name).trans hc)
  have hmir : s'.fs.lookup (mirP O A rel) = s.fs.lookup (mirP O A rel) := by
    apply pFsf
    · exact mirP_not_under_root O A B hOB rel
    · intro hc
      have hdL : ((O ++ "/" ++ B.name) ++ "/").data =
          (O ++ "/").data ++ (B.name ++ "/").data := by
        simp [String.data_append, List.append_assoc]
      have hdR : (mirP O A rel).data = (O ++ "/").data ++ (keyP A rel).data := by
        simp [mirP, String.data_append, List.append_assoc]
      rw [hdL, hdR] at hc
      have hc' : (B.name ++ "/").data <+: (keyP A rel).data :=
        (List.prefix_append_right_inj _).mp hc
      exact not_under_of_notNested (notNested_symm hNN) rel hc'
  have hman : s'.manifest.get (keyP A rel) = s.manifest.get (keyP A rel) :=
    pMf _ (not_under_of_notNested (notNested_symm hNN) rel)
  refine ⟨cs, ms, cm, mm, by rw [hsrc]; exact hs, by rw [hmir]; exact hm, ?_⟩
  rcases hd with ⟨heq, e, hget, hh⟩ | ⟨hne, hget⟩
  · exact Or.inl ⟨heq, e, by rw [hman]; exact hget, hh⟩
  · exact Or.inr ⟨hne, by rw [hman]; exact hget⟩

/-- A conflict-free first pass over a list of pairwise not-nested repos
establishes stability of every walked in-scope file of every repo, keeps
the invariants, and preserves walks and stability of any repo not nested
with the processed ones. -/
theorem scan1_repos_fold (O : String) (repos : List RepoConfig) :
    ∀ (st : SyncState) (acc : ScanResult),
    (∀ r ∈ repos, NotNested O r.path) →
    repos.Pairwise (fun r r' => NotNested r.path r'.path ∧ NotNested r.name r'.name) →
    noSymP st.fs → (keysA st.fs.files).Nodup → SourcesLive st →
    ∀ r' st', repos.foldl (fullStep hash mergeFn ts now O) (acc, st) = (r', st') →
    r'.conflicts = acc.conflicts →
    (noSymP st'.fs ∧ (keysA st'.fs.files).Nodup ∧ SourcesLive st' ∧
     (∀ repo ∈ repos, ∀ rel ∈ walkFiles st'.fs repo,
       should_mirror rel repo.ex repo.inc = true → StableFor hash O repo rel st') ∧
     (∀ A : RepoConfig, NotNested O A.path →
       (∀ r ∈ repos, NotNested A.path r.path ∧ NotNested A.name r.name) →
       walkFiles st'.fs A = walkFiles st.fs A ∧
       (∀ rel, StableFor hash O A rel st → StableFor hash O A rel st'))) := by
  induction repos with
  | nil =>
    intro st acc hO hpw hns hknd hlive r' st' hfold hcf
    cases hfold
    exact ⟨hns, hknd, hlive, by simp, fun A _ _ => ⟨rfl, fun rel h => h⟩⟩
  | cons B rest ih =>
    intro st acc hO hpw hns hknd hlive r' st' hfold hcf
    rcases hsc : scan_repo hash mergeFn ts now B O st with ⟨rB, sB⟩
    have hstep : fullStep hash mergeFn ts now O (acc, st) B = (acc.mergeR rB, sB) := by
      unfold fullStep
      rw [hsc]
    rw [List.foldl_cons, hstep] at hfold
    have hge : (acc.mergeR rB).conflicts ≤ r'.conflicts := by
      have h1 := fullFold_conflicts_ge hash mergeFn ts now O rest (acc.mergeR rB, sB)
      rw [hfold] at h1
      exact h1
    have hme : (acc.mergeR rB).conflicts = acc.conflicts + rB.conflicts := rfl
    have hrB : rB.conflicts = 0 := by omega
    have hcf' : r'.conflicts = (acc.mergeR rB).conflicts := by omega
    have hOB := hO B (List.mem_cons_self B rest)
    have hcfB : (scan_repo hash mergeFn ts now B O st).1.conflicts = 0 := by
      rw [hsc]; exact hrB
    have postB := scan1_scan_repo hash mergeFn ts now B O hOB st hns hknd hlive hcfB
    rw [hsc] at postB
    have pStab := postB.1
    have pNs := postB.2.1
    have pKnd := postB.2.2.1
    have pLive := postB.2.2.2.1
    obtain ⟨ext, hext, hextm⟩ := postB.2.2.2.2.2.1
    have hOrest : ∀ r ∈ rest, NotNested O r.path :=
      fun r h => hO r (List.mem_cons_of_mem _ h)
    have hBrest := (List.pairwise_cons.mp hpw).1
    have hpw' := (List.pairwise_cons.mp hpw).2
    obtain ⟨fNs, fKnd, fLive, fStab, fPres⟩ :=
      ih sB (acc.mergeR rB) hOrest hpw' pNs pKnd pLive r' st' hfold hcf'
    have hBpres := fPres B hOB (fun r h => hBrest r h)
    have hwB : walkFiles sB.fs B = walkFiles st.fs B :=
      walk_preserved O B hOB hns pNs hext hextm
    refine ⟨fNs, fKnd, fLive, ?_, ?_⟩
    · intro repo hrepo rel hrel hsm
      rcases List.mem_cons.mp hrepo with he | he
      · subst he
        have hrel' : rel ∈ walkFiles st.fs repo := by
          rw [← hwB, ← hBpres.1]
          exact hrel
        exact hBpres.2 rel (pStab rel hrel' hsm)
      · exact fStab repo he rel hrel hsm
    · intro A hOA hA
      have hArest := fPres A hOA (fun r h => hA r (List.mem_cons_of_mem _ h))
      have hAB := hA B (List.mem_cons_self B rest)
      refine ⟨?_, ?_⟩
      · rw [hArest.1]
        exact walk_preserved O A hOA hns pNs hext hextm
      · intro rel hstb
        exact hArest.2 rel
          (stableFor_preserved hash O A B hAB.1 hAB.2 hOA hOB postB rel hstb)

/-- On a stable state, a pass over the repos leaves the state untouched
and tallies only AlreadyInSync and Skipped, their sum counting the
in-scope files repo by repo. -/
theorem scan2_repos_fold (O : String) (repos : List RepoConfig) :
    ∀ (s1 : SyncState) (acc : ScanResult),
    noSymP s1.fs →
    SourcesLive s1 →
    (∀ repo ∈ repos, ∀ rel ∈ walkFiles s1.fs repo,
      should_mirror rel repo.ex repo.inc = true → StableFor hash O repo rel s1) →
    ∃ A S, repos.foldl (fullStep hash mergeFn ts now O) (acc, s1) =
      (⟨acc.created, acc.already_existed + A, acc.skipped + S, acc.pruned, acc.merged,
        acc.conflicts, acc.errors⟩, s1) ∧
      A + S = (repos.map (fun repo => ((walkFiles s1.fs repo).filter
        (fun rel => should_mirror rel repo.ex repo.inc)).length)).sum := by
  induction repos with
  | nil =>
    intro s1 acc hns hlive hstab
    refine ⟨0, 0, ?_, by simp⟩
    cases acc
    simp
  | cons B rest ih =>
    intro s1 acc hns hlive hstab
    obtain ⟨A1, S1, hscB, hsumB⟩ := scan_repo_on_stable hash mergeFn ts now B O s1 hns
      (fun rel h1 h2 => hstab B (List.mem_cons_self B rest) rel h1 h2) hlive
    have hstep : fullStep hash mergeFn ts now O (acc, s1) B =
        (acc.mergeR ⟨0, A1, S1, 0, 0, 0, 0⟩, s1) := by
      unfold fullStep
      rw [hscB]
    obtain ⟨A2, S2, hfold, hsum2⟩ := ih s1 (acc.mergeR ⟨0, A1, S1, 0, 0, 0, 0⟩)
      hns hlive (fun repo h => hstab repo (List.mem_cons_of_mem _ h))
    refine ⟨A1 + A2, S1 + S2, ?_, ?_⟩
    · rw [List.foldl_cons, hstep, hfold]
      simp [ScanResult.mergeR, Prod.mk.injEq, ScanResult.mk.injEq]
      try omega
    · simp only [List.map_cons, List.sum_cons]
      omega

end CrossRepo

/-- Claim C3: the claim that an immediate second `full_scan` reports
`already_in_sync` equal to the number of in-scope files fails: a mirror
file that predates the scan with content differing from its source
(foreign mirror) is in scope but tallies Skipped on every scan, so the
second scan reports `already_in_sync = 0` against one in-scope file. -/
theorem claim_C3_counterexample :
    ¬ ((full_scan (fun s => s) (fun _ _ _ => none) "T" 7
        ⟨"out", [⟨"repo", "r", fun _ _ => false, fun _ => true⟩]⟩
        (full_scan (fun s => s) (fun _ _ _ => none) "T" 7
          ⟨"out", [⟨"repo", "r", fun _ _ => false, fun _ => true⟩]⟩
          ⟨⟨[("repo/doc.md", .file "a" 0), ("out/r/doc.md", .file "b" 0)], ["repo"]⟩,
            ⟨[]⟩, []⟩).2).1.already_existed =
      inScopeCount
        ((full_scan (fun s => s) (fun _ _ _ => none) "T" 7
          ⟨"out", [⟨"repo", "r", fun _ _ => false, fun _ => true⟩]⟩
          ⟨⟨[("repo/doc.md", .file "a" 0), ("out/r/doc.md", .file "b" 0)], ["repo"]⟩,
            ⟨[]⟩, []⟩).2).fs
        ⟨"out", [⟨"repo", "r", fun _ _ => false, fun _ => true⟩]⟩) := by
  decide

/-- Claim C3, amended: on a well-formed configuration (output directory
and repo roots pairwise not nested, repo names pairwise not nested), a
symlink-free filesystem with duplicate-free keys, every manifest source
alive, and a conflict-free first `full_scan`, the immediate second
`full_scan` leaves the state untouched and reports `created = 0`,
`pruned = 0`, `merged = 0`, `conflicts = 0`, `errors = 0`, and
`already_in_sync + skipped` equal to the number of in-scope files (foreign
mirror files are in scope but tally Skipped, not AlreadyInSync). -/
theorem claim_C3_amended (hash : String → String)
    (mergeFn : String → String → String → Option String) (ts : String) (now : Nat)
    (cfg : Config) (st : SyncState)
    (hwf : ConfigWF cfg) (hns : noSymP st.fs) (hknd : (keysA st.fs.files).Nodup)
    (hlive : SourcesLive st)
    (hcf : (full_scan hash mergeFn ts now cfg st).1.conflicts = 0) :
    (full_scan hash mergeFn ts now cfg (full_scan hash mergeFn ts now cfg st).2).2 =
      (full_scan hash mergeFn ts now cfg st).2 ∧
    (full_scan hash mergeFn ts now cfg
      (full_scan hash mergeFn ts now cfg st).2).1.created = 0 ∧
    (full_scan hash mergeFn ts now cfg
      (full_scan hash mergeFn ts now cfg st).2).1.pruned = 0 ∧
    (full_scan hash mergeFn ts now cfg
      (full_scan hash mergeFn ts now cfg st).2).1.merged = 0 ∧
    (full_scan hash mergeFn ts now cfg
      (full_scan hash mergeFn ts now cfg st).2).1.conflicts = 0 ∧
    (full_scan hash mergeFn ts now cfg
      (full_scan hash mergeFn ts now cfg st).2).1.errors = 0 ∧
    (full_scan hash mergeFn ts now cfg
        (full_scan hash mergeFn ts now cfg st).2).1.already_existed +
      (full_scan hash mergeFn ts now cfg
        (full_scan hash mergeFn ts now cfg st).2).1.skipped =
      inScopeCount (full_scan hash mergeFn ts now cfg st).2.fs cfg := by
  have hO : ∀ r ∈ cfg.repos, NotNested cfg.output_dir r.path := hwf.1
  have hpw := hwf.2
  rw [full_scan_eq_fold] at hcf
  rcases hf1 : cfg.repos.foldl (fullStep hash mergeFn ts now cfg.output_dir)
    (ScanResult.zero, st) with ⟨r1, s1⟩
  rw [hf1] at hcf
  obtain ⟨fNs, fKnd, fLive, fStab, fPres⟩ := scan1_repos_fold hash mergeFn ts now
    cfg.output_dir cfg.repos st ScanResult.zero hO hpw hns hknd hlive r1 s1 hf1 hcf
  obtain ⟨A, S, hf2, hsum⟩ := scan2_repos_fold hash mergeFn ts now cfg.output_dir
    cfg.repos s1 ScanResult.zero fNs fLive fStab
  have h1 : (full_scan hash mergeFn ts now cfg st).2 = s1 := by
    rw [full_scan_eq_fold, hf1]
  rw [h1, full_scan_eq_fold, hf2]
  refine ⟨rfl, rfl, rfl, rfl, rfl, rfl, ?_⟩
  unfold inScopeCount
  rw [← hsum]
  show 0 + A + (0 + S) = A + S
  omega

/-- Witness for the amended claim C3: a single repo with one source file
and a fresh mirror; the first scan copies it, the second reports it
AlreadyInSync. -/
theorem claim_C3_witness :
    (full_scan (fun s => s) (fun _ _ _ => none) "T" 7
      ⟨"out", [⟨"repo", "r", fun _ _ => false, fun _ => true⟩]⟩
      (full_scan (fun s => s) (fun _ _ _ => none) "T" 7
        ⟨"out", [⟨"repo", "r", fun _ _ => false, fun _ => true⟩]⟩
        ⟨⟨[("repo/doc.md", .file "a" 0)], ["repo"]⟩, ⟨[]⟩, []⟩).2).2 =
      (full_scan (fun s => s) (fun _ _ _ => none) "T" 7
        ⟨"out", [⟨"repo", "r", fun _ _ => false, fun _ => true⟩]⟩
        ⟨⟨[("repo/doc.md", .file "a" 0)], ["repo"]⟩, ⟨[]⟩, []⟩).2 ∧
    (full_scan (fun s => s) (fun _ _ _ => none) "T" 7
      ⟨"out", [⟨"repo", "r", fun _ _ => false, fun _ => true⟩]⟩
      (full_scan (fun s => s) (fun _ _ _ => none) "T" 7
        ⟨"out", [⟨"repo", "r", fun _ _ => false, fun _ => true⟩]⟩
        ⟨⟨[("repo/doc.md", .file "a" 0)], ["repo"]⟩, ⟨[]⟩, []⟩).2).1.created = 0 ∧
    (full_scan (fun s => s) (fun _ _ _ => none) "T" 7
      ⟨"out", [⟨"repo", "r", fun _ _ => false, fun _ => true⟩]⟩
      (full_scan (fun s => s) (fun _ _ _ => none) "T" 7
        ⟨"out", [⟨"repo", "r", fun _ _ => false, fun _ => true⟩]⟩
        ⟨⟨[("repo/doc.md", .file "a" 0)], ["repo"]⟩, ⟨[]⟩, []⟩).2).1.pruned = 0 ∧
    (full_scan (fun s => s) (fun _ _ _ => none) "T" 7
      ⟨"out", [⟨"repo", "r", fun _ _ => false, fun _ => true⟩]⟩
      (full_scan (fun s => s) (fun _ _ _ => none) "T" 7
        ⟨"out", [⟨"repo", "r", fun _ _ => false, fun _ => true⟩]⟩
        ⟨⟨[("repo/doc.md", .file "a" 0)], ["repo"]⟩, ⟨[]⟩, []⟩).2).1.merged = 0 ∧
    (full_scan (fun s => s) (fun _ _ _ => none) "T" 7
      ⟨"out", [⟨"repo", "r", fun _ _ => false, fun _ => true⟩]⟩
      (full_scan (fun s => s) (fun _ _ _ => none) "T" 7
        ⟨"out", [⟨"repo", "r", fun _ _ => false, fun _ => true⟩]⟩
        ⟨⟨[("repo/doc.md", .file "a" 0)], ["repo"]⟩, ⟨[]⟩, []⟩).2).1.conflicts = 0 ∧
    (full_scan (fun s => s) (fun _ _ _ => none) "T" 7
      ⟨"out", [⟨"repo", "r", fun _ _ => false, fun _ => true⟩]⟩
      (full_scan (fun s => s) (fun _ _ _ => none) "T" 7
        ⟨"out", [⟨"repo", "r", fun _ _ => false, fun _ => true⟩]⟩
        ⟨⟨[("repo/doc.md", .file "a" 0)], ["repo"]⟩, ⟨[]⟩, []⟩).2).1.errors = 0 ∧
    (full_scan (fun s => s) (fun _ _ _ => none) "T" 7
        ⟨"out", [⟨"repo", "r", fun _ _ => false, fun _ => true⟩]⟩
        (full_scan (fun s => s) (fun _ _ _ => none) "T" 7
          ⟨"out", [⟨"repo", "r", fun _ _ => false, fun _ => true⟩]⟩
          ⟨⟨[("repo/doc.md", .file "a" 0)], ["repo"]⟩, ⟨[]⟩, []⟩).2).1.already_existed +
      (full_scan (fun s => s) (fun _ _ _ => none) "T" 7
        ⟨"out", [⟨"repo", "r", fun _ _ => false, fun _ => true⟩]⟩
        (full_scan (fun s => s) (fun _ _ _ => none) "T" 7
          ⟨"out", [⟨"repo", "r", fun _ _ => false, fun _ => true⟩]⟩
          ⟨⟨[("repo/doc.md", .file "a" 0)], ["repo"]⟩, ⟨[]⟩, []⟩).2).1.skipped =
      inScopeCount
        (full_scan (fun s => s) (fun _ _ _ => none) "T" 7
          ⟨"out", [⟨"repo", "r", fun _ _ => false, fun _ => true⟩]⟩
          ⟨⟨[("repo/doc.md", .file "a" 0)], ["repo"]⟩, ⟨[]⟩, []⟩).2.fs
        ⟨"out", [⟨"repo", "r", fun _ _ => false, fun _ => true⟩]⟩ :=
  claim_C3_amended (fun s => s) (fun _ _ _ => none) "T" 7
    ⟨"out", [⟨"repo", "r", fun _ _ => false, fun _ => true⟩]⟩
    ⟨⟨[("repo/doc.md", .file "a" 0)], ["repo"]⟩, ⟨[]⟩, []⟩
    (by decide) (by decide) (by decide) (by decide) (by decide)

end UlyssesLink
